import Mathlib

/-!
Verification of the storage-engine core of the bustub repository: the LRU-K
replacer (`src/buffer/lru_k_replacer.cpp`), the buffer pool manager
(`src/buffer/buffer_pool_manager.cpp`), the page guards
(`src/storage/page/page_guard.cpp`), and the B+ tree pages and index
(`src/storage/page/b_plus_tree_leaf_page.cpp`,
`src/storage/page/b_plus_tree_internal_page.cpp`,
`src/storage/index/b_plus_tree.cpp`).

Each C++ function is shallowly embedded as an executable Lean definition:
machine-integer fields become `Int`/`Nat`, in-page arrays become total
functions `Int → _` (the source reinterprets raw page bytes, and some code
paths index out of the declared range), assertion failures / null-pointer
dereferences / other undefined behaviour become `Option.none`, and loops are
either structural recursions or fuel-bounded recursions (each C++ loop
strictly shrinks an interval, so a sufficiently large fuel reproduces it
exactly).
-/

/-! ## Association-list and array helpers used to model `std::unordered_map`
and raw page arrays. -/

/-- First value bound to key `key` in an association list (models `find` on
an `std::unordered_map`, whose keys are unique). -/
def lookupKey {κ α : Type} [DecidableEq κ] : List (κ × α) → κ → Option α
  | [], _ => none
  | e :: rest, key => if e.1 = key then some e.2 else lookupKey rest key

/-- Does the association list bind `key`? -/
def containsKey {κ α : Type} [DecidableEq κ] (l : List (κ × α)) (key : κ) : Bool :=
  (lookupKey l key).isSome

/-- Remove the entry bound to `key` (models `erase` on an `std::unordered_map`). -/
def eraseKey {κ α : Type} [DecidableEq κ] : List (κ × α) → κ → List (κ × α)
  | [], _ => []
  | e :: rest, key => if e.1 = key then rest else e :: eraseKey rest key

/-- Replace the value bound to `key` (models `operator[]` assignment on an
`std::unordered_map` when the key is present). -/
def setKey {κ α : Type} [DecidableEq κ] : List (κ × α) → κ → α → List (κ × α)
  | [], _, _ => []
  | e :: rest, key, v => if e.1 = key then (key, v) :: rest else e :: setKey rest key v

/-- Keys of an association list are pairwise distinct (an `std::unordered_map`
invariant). -/
def nodupKeys {κ α : Type} (l : List (κ × α)) : Prop :=
  l.Pairwise (fun a b => a.1 ≠ b.1)

instance {κ α : Type} [DecidableEq κ] (l : List (κ × α)) : Decidable (nodupKeys l) := by
  unfold nodupKeys; infer_instance

/-- Update index `i` of a list (models `pages_[i] = …` on the frame array). -/
def setAt {α : Type} : List α → Nat → α → List α
  | [], _, _ => []
  | _ :: rest, 0, v => v :: rest
  | x :: rest, Nat.succ n, v => x :: setAt rest n v

/-- Pointwise update of a total function modelling a raw in-page array. -/
def updArr {α : Type} (a : Int → α) (i : Int) (x : α) : Int → α :=
  fun j => if j = i then x else a j

/-! ## LRU-K replacer (`src/buffer/lru_k_replacer.cpp`)

Timestamps are modelled as `Nat` microsecond counts; `std::numeric_limits<size_t>::max()`
is the constant `sizeMax`.  The node history is a list, oldest first, exactly
as in the `std::list` FIFO of the source. -/

/-- `std::numeric_limits<size_t>::max()`. -/
def sizeMax : Nat := 2 ^ 64 - 1

/-- `LRUKNode`: per-frame record of up to `k` access timestamps (oldest first)
plus the evictable flag, from `lru_k_replacer.h`/`lru_k_replacer.cpp`. -/
structure LRUKNode where
  history : List Nat
  fid : Nat
  is_evictable : Bool
  deriving DecidableEq, Repr

/-- `LRUKNode::GetBackward(k)`: the `k`-th most recent timestamp, or
`SIZE_MAX` when fewer than `k` accesses are recorded.  The source walks the
history from the most recent end and returns the element reached at count
`k`; for `k = 0` the loop never fires and the initial `backward_k = 0` is
returned. -/
def LRUKNode.GetBackward (n : LRUKNode) (k : Nat) : Nat :=
  if n.history.length < k then sizeMax
  else if k = 0 then 0
  else n.history.getD (n.history.length - k) 0

/-- `LRUKReplacer` state: the node map (in the iteration order of the
`std::unordered_map`), the evictable-count `curr_size_`, the frame bound
`replacer_size_`, and `k_`. -/
structure LRUKReplacer where
  node_store : List (Nat × LRUKNode)
  curr_size : Nat
  replacer_size : Nat
  k : Nat
  deriving DecidableEq, Repr

/-- The loop body chain of `LRUKReplacer::SelectEvictableNode`, iterating the
node map with accumulator (`frame_id`, `inf_node`, `least_recent_time`).
`none` models the `BUSTUB_ASSERT(0, "Unexpected Situation!")` abort reached
when a node's history exceeds `k`. -/
def selectGo (k : Nat) : List (Nat × LRUKNode) → Int → Bool → Nat → Option Int
  | [], fid, _, _ => some fid
  | e :: rest, fid, inf, least =>
    if e.2.is_evictable = false then selectGo k rest fid inf least
    else if e.2.history.length < k ∧ inf = false then
      selectGo k rest (Int.ofNat e.1) true (e.2.GetBackward e.2.history.length)
    else if e.2.history.length < k ∧ inf = true then
      (if e.2.GetBackward e.2.history.length < least then
        selectGo k rest (Int.ofNat e.1) true (e.2.GetBackward e.2.history.length)
      else selectGo k rest fid inf least)
    else if e.2.history.length = k ∧ inf = false then
      (if e.2.GetBackward k < least then
        selectGo k rest (Int.ofNat e.1) inf (e.2.GetBackward k)
      else selectGo k rest fid inf least)
    else if e.2.history.length = k ∧ inf = true then
      selectGo k rest fid inf least
    else none

/-- `LRUKReplacer::SelectEvictableNode`: `frame_id` starts at `-1`,
`inf_node` at `false`, `least_recent_time` at `SIZE_MAX`. -/
def SelectEvictableNode (r : LRUKReplacer) : Option Int :=
  selectGo r.k r.node_store (-1) false sizeMax

/-- `LRUKReplacer::Evict`: returns `false` when `curr_size_ == 0`; otherwise
selects a victim, checks `0 <= *frame_id && *frame_id <= replacer_size_`
(assert abort modelled as `none`), erases the node if present and decrements
`curr_size_`.  Result: `(return value, evicted frame, new state)`. -/
def lrukEvict (r : LRUKReplacer) : Option (Bool × Option Nat × LRUKReplacer) :=
  if r.curr_size = 0 then some (false, none, r)
  else
    match SelectEvictableNode r with
    | none => none
    | some fid =>
      if 0 ≤ fid ∧ fid ≤ (r.replacer_size : Int) then
        let f := fid.toNat
        if containsKey r.node_store f then
          some (true, some f,
            { r with node_store := eraseKey r.node_store f, curr_size := r.curr_size - 1 })
        else some (true, some f, r)
      else none

/-- `LRUKReplacer::Remove`: returns silently when the frame has no node;
aborts (`BUSTUB_ASSERT`, modelled as `none`) when the node exists but is not
evictable; otherwise erases it and decrements `curr_size_`. -/
def lrukRemove (r : LRUKReplacer) (frame_id : Nat) : Option LRUKReplacer :=
  match lookupKey r.node_store frame_id with
  | none => some r
  | some n =>
    if n.is_evictable = true then
      some { r with node_store := eraseKey r.node_store frame_id,
                    curr_size := r.curr_size - 1 }
    else none

/-- `LRUKReplacer::SetEvictable`: throws when `frame_id > replacer_size_`,
asserts that the node exists (both modelled as `none`), and adjusts
`curr_size_` by `±1` only when the flag actually changes. -/
def lrukSetEvictable (r : LRUKReplacer) (frame_id : Nat) (flag : Bool) : Option LRUKReplacer :=
  if (frame_id : Int) > (r.replacer_size : Int) then none
  else
    match lookupKey r.node_store frame_id with
    | none => none
    | some n =>
      if (n.is_evictable != flag) = true then
        some { r with
          node_store := setKey r.node_store frame_id { n with is_evictable := flag },
          curr_size := if flag then r.curr_size + 1 else r.curr_size - 1 }
      else some r

/-- Number of evictable nodes in the store; `curr_size_` tracks this. -/
def countEvictable (l : List (Nat × LRUKNode)) : Nat :=
  (l.filter (fun e => e.2.is_evictable)).length

/-! ## Buffer pool manager (`src/buffer/buffer_pool_manager.cpp`)

Only the state and operations the claims need: the frame array, the page
table, the free list, and `UnpinPage`. -/

/-- `INVALID_PAGE_ID`. -/
def INVALID_PAGE_ID : Int := -1

/-- A `Page` frame as used by the buffer pool: `page_id_`, `pin_count_`,
`is_dirty_` (the byte payload is irrelevant to the claims below). -/
structure Frame where
  page_id : Int
  pin_count : Int
  is_dirty : Bool
  deriving DecidableEq, Repr

/-- `BufferPoolManager` state: `pages_`, `page_table_`, `free_list_`, the
replacer, and `next_page_id_`. -/
structure BufferPool where
  frames : List Frame
  page_table : List (Int × Nat)
  free_list : List Nat
  replacer : LRUKReplacer
  next_page_id : Int
  deriving DecidableEq, Repr

/-- `BufferPoolManager::UnpinPage`.  The source first looks the page up in the
page table (miss returns `false` with nothing changed), then ORs the dirty
flag into the frame (`page->is_dirty_ |= is_dirty;`) before inspecting the
pin count; a zero pin count returns `false`, a positive one is decremented
and the frame is marked evictable exactly when it reaches zero.  `none`
models the out-of-bounds frame access, the `BUSTUB_ASSERT(pin_count > 0)`
abort, and an aborting `SetEvictable` call. -/
def bpUnpinPage (bp : BufferPool) (page_id : Int) (is_dirty : Bool) :
    Option (Bool × BufferPool) :=
  match lookupKey bp.page_table page_id with
  | none => some (false, bp)
  | some frame_id =>
    match bp.frames.get? frame_id with
    | none => none
    | some page =>
      let page1 : Frame := { page with is_dirty := page.is_dirty || is_dirty }
      if page1.pin_count ≠ 0 then
        if page1.pin_count > 0 then
          let page2 : Frame := { page1 with pin_count := page1.pin_count - 1 }
          let evictable := page2.pin_count = 0
          match lrukSetEvictable bp.replacer frame_id (decide evictable) with
          | none => none
          | some rep =>
            some (true, { bp with frames := setAt bp.frames frame_id page2, replacer := rep })
        else none
      else some (false, { bp with frames := setAt bp.frames frame_id page1 })

/-! ## Page guards (`src/storage/page/page_guard.cpp`)

A guard holds the pair of pointers (`bpm_`, `page_`) and the flag
`is_dirty_`; the model records whether `bpm_` is null and the page id behind
`page_` (or `none` for a null page pointer).  The observable calls a guard
operation makes — `UnpinPage`, `RUnlatch`, `WUnlatch` — are returned as an
event trace; `none` models a null-pointer dereference or an assertion
abort. -/

/-- Observable effect of a guard operation. -/
inductive GEvent where
  | unpin (pid : Int)
  | runlatch (pid : Int)
  | wunlatch (pid : Int)
  deriving DecidableEq, Repr

/-- `BasicPageGuard` data. -/
structure BasicPageGuard where
  bpm : Bool
  page : Option Int
  is_dirty : Bool
  deriving DecidableEq, Repr

/-- `BasicPageGuard::Drop`: a no-op when both pointers are null; asserts both
non-null otherwise; then unpins the page and nulls both pointers (the
`is_dirty_` flag is left as is). -/
def basicDrop (g : BasicPageGuard) : Option (BasicPageGuard × List GEvent) :=
  if g.bpm = false ∧ g.page = none then some (g, [])
  else
    match g.bpm, g.page with
    | true, some pid => some ({ g with bpm := false, page := none }, [GEvent.unpin pid])
    | _, _ => none

/-- `BasicPageGuard::operator=(BasicPageGuard&&)` for distinct operands: the
three fields are copied from the source and the source is emptied.  The body
makes no `UnpinPage` call, so the event trace is empty — the destination's
previous fields are overwritten without being read.  Result:
`(destination after, source after, events)`. -/
def basicMoveAssign (_dst src : BasicPageGuard) :
    BasicPageGuard × BasicPageGuard × List GEvent :=
  ({ bpm := src.bpm, page := src.page, is_dirty := src.is_dirty },
   { bpm := false, page := none, is_dirty := false },
   [])

/-- Modelled from the spec: "Move-assignment drops the destination first"
then "transfer ownership and leave the source empty" (spec §4.3).  Used only
to exhibit the divergence between the source's move-assignment and the
specified one. -/
def specMoveAssignDropsFirst (dst src : BasicPageGuard) :
    BasicPageGuard × BasicPageGuard × List GEvent :=
  (⟨src.bpm, src.page, src.is_dirty⟩,
   ⟨false, none, false⟩,
   match dst.bpm, dst.page with
   | true, some pid => [GEvent.unpin pid]
   | _, _ => [])

/-- `BasicPageGuard::~BasicPageGuard`: returns when both pointers are null,
otherwise asserts and calls `Drop`. -/
def basicDestruct (g : BasicPageGuard) : Option (BasicPageGuard × List GEvent) :=
  if g.page = none ∧ g.bpm = false then some (g, [])
  else
    match g.bpm, g.page with
    | true, some _ => basicDrop g
    | _, _ => none

/-- `ReadPageGuard` wraps a basic guard. -/
structure ReadPageGuard where
  guard : BasicPageGuard
  deriving DecidableEq, Repr

/-- `WritePageGuard` wraps a basic guard. -/
structure WritePageGuard where
  guard : BasicPageGuard
  deriving DecidableEq, Repr

/-- `ReadPageGuard::Drop`: `guard_.page_->RUnlatch();` with no null check —
a null page pointer is dereferenced (`none`) — then `guard_.Drop()`. -/
def readDrop (g : ReadPageGuard) : Option (ReadPageGuard × List GEvent) :=
  match g.guard.page with
  | none => none
  | some pid =>
    (basicDrop g.guard).map (fun r => (⟨r.1⟩, GEvent.runlatch pid :: r.2))

/-- `WritePageGuard::Drop`: `guard_.page_->WUnlatch();` with no null check,
then `guard_.Drop()`. -/
def writeDrop (g : WritePageGuard) : Option (WritePageGuard × List GEvent) :=
  match g.guard.page with
  | none => none
  | some pid =>
    (basicDrop g.guard).map (fun r => (⟨r.1⟩, GEvent.wunlatch pid :: r.2))

/-- `ReadPageGuard::~ReadPageGuard`: returns when the wrapped guard is empty,
otherwise asserts both pointers non-null and calls `Drop`. -/
def readDestruct (g : ReadPageGuard) : Option (ReadPageGuard × List GEvent) :=
  if g.guard.page = none ∧ g.guard.bpm = false then some (g, [])
  else
    match g.guard.bpm, g.guard.page with
    | true, some _ => readDrop g
    | _, _ => none

/-- `WritePageGuard::~WritePageGuard`: same shape as the read variant. -/
def writeDestruct (g : WritePageGuard) : Option (WritePageGuard × List GEvent) :=
  if g.guard.page = none ∧ g.guard.bpm = false then some (g, [])
  else
    match g.guard.bpm, g.guard.page with
    | true, some _ => writeDrop g
    | _, _ => none

/-! ## B+ tree pages

Keys and values are modelled as `Int`; the injected comparator is the
three-way integer comparison.  A page's `array_` is a total function
`Int → Int × Int` because the source manipulates raw indices, including
out-of-range ones (`array_[-1]` in `BPlusTreeLeafPage::Remove` with offset
`-1`); the accessors `KeyAt`/`ValueAt`/`SetKeyAt`/`SetValueAt` throw on a
negative index in the source, and every call site modelled below passes a
non-negative one, so they are embedded as total reads/writes.  All C++
integer divisions below have non-negative operands, where C++ truncation and
Lean's `Int` division agree.  Fuel arguments bound loops whose C++
counterparts strictly shrink an interval each iteration; each call passes
fuel strictly larger than the iteration count, so the embedding never
exhausts it. -/

/-- The injected `KeyComparator`: three-way comparison. -/
def keyComp (a b : Int) : Int := if a < b then -1 else if b < a then 1 else 0

/-- `IndexPageType::LEAF_PAGE` (the enum starts at `INVALID_INDEX_PAGE = 0`). -/
def LEAF_PAGE : Int := 1

/-- `IndexPageType::INTERNAL_PAGE`. -/
def INTERNAL_PAGE : Int := 2

/-- Modelled from the spec: the header constant `LEAF_PAGE_SIZE` (the number
of mappings that fit a 4096-byte page, §6 "densely packed key/value array")
is defined in a header that is not part of `src/`; only its value as a
capacity bound matters, and it exceeds every tree fan-out used below. -/
def LEAF_PAGE_SIZE : Int := 255

/-- Modelled from the spec: the header constant `INTERNAL_PAGE_SIZE`,
analogous to `LEAF_PAGE_SIZE`. -/
def INTERNAL_PAGE_SIZE : Int := 255

/-- `BPlusTreeLeafPage`: common header (`page_type_`, `size_`, `max_size_`),
`next_page_id_`, and the mapping array. -/
structure LeafNode where
  arr : Int → Int × Int
  size : Int
  max_size : Int
  next_page_id : Int
  page_type : Int

/-- `KeyAt` (source throws on a negative index; all modelled call sites pass
a non-negative one). -/
def leafKeyAt (p : LeafNode) (i : Int) : Int := (p.arr i).1

/-- `ValueAt`. -/
def leafValueAt (p : LeafNode) (i : Int) : Int := (p.arr i).2

/-- `SetMappingAt`: ignored when `index >= GetMaxSize()`. -/
def leafSetMappingAt (p : LeafNode) (index : Int) (map : Int × Int) : LeafNode :=
  if index ≥ p.max_size then p else { p with arr := updArr p.arr index map }

/-- The binary-search loop of `BPlusTreeLeafPage::PlaceMapping` (lines
104-119): returns the insert position `pos`. -/
def leafPMLoop (p : LeafNode) (key : Int) (l r pos : Int) : Nat → Int
  | 0 => pos
  | fuel + 1 =>
    if l ≤ r then
      let mid := (l + r) / 2
      if keyComp (leafKeyAt p mid) key = 0 then mid
      else if keyComp (leafKeyAt p mid) key = -1 then leafPMLoop p key (mid + 1) r (mid + 1) fuel
      else leafPMLoop p key l (mid - 1) (if mid < pos then mid else pos) fuel
    else pos

/-- The element-shifting loop `for(int i = GetSize() - 1; i >= pos; i--)
array_[i + 1] = array_[i];` shared by both `PlaceMapping`s. -/
def shiftUpLoop (a : Int → Int × Int) (i pos : Int) : Nat → (Int → Int × Int)
  | 0 => a
  | fuel + 1 => if i ≥ pos then shiftUpLoop (updArr a (i + 1) (a i)) (i - 1) pos fuel else a

/-- `BPlusTreeLeafPage::PlaceMapping`: an empty page takes the mapping at
slot 0; a full page (`GetSize() == GetMaxSize()`) returns `false` unchanged;
otherwise the binary search finds `pos` — on an exact key match it *breaks
with `pos = mid`*, so the duplicate is inserted in front of the existing
entry — entries from `pos` on are shifted up and the mapping is stored. -/
def leafPlaceMapping (p : LeafNode) (key value : Int) : Bool × LeafNode :=
  if p.size = 0 then
    (true, { p with arr := updArr p.arr 0 (key, value), size := p.size + 1 })
  else
    if p.size = p.max_size then (false, p)
    else
      let pos := leafPMLoop p key 0 (p.size - 1) 0 (p.size.toNat + 2)
      let a := shiftUpLoop p.arr (p.size - 1) pos (p.size.toNat + 2)
      (true, { p with arr := updArr a pos (key, value), size := p.size + 1 })

/-- The binary-search loop of `BPlusTreeLeafPage::SearchKey`: `pos` stays
`-1` unless an exact match breaks the loop. -/
def leafSKLoop (p : LeafNode) (key : Int) (l r : Int) : Nat → Int
  | 0 => -1
  | fuel + 1 =>
    if l ≤ r then
      let mid := (l + r) / 2
      if keyComp (leafKeyAt p mid) key = 0 then mid
      else if keyComp (leafKeyAt p mid) key = -1 then leafSKLoop p key (mid + 1) r fuel
      else leafSKLoop p key l (mid - 1) fuel
    else -1

/-- `BPlusTreeLeafPage::SearchKey`: index of the key, `-1` when absent. -/
def leafSearchKey (p : LeafNode) (key : Int) : Int :=
  leafSKLoop p key 0 (p.size - 1) (p.size.toNat + 2)

/-- The shifting loop `for(int i = offset; i < GetSize() - 1; i++)
array_[i] = array_[i + 1];` of `BPlusTreeLeafPage::Remove`. -/
def shiftDownLoop (a : Int → Int × Int) (i stop : Int) : Nat → (Int → Int × Int)
  | 0 => a
  | fuel + 1 => if i < stop then shiftDownLoop (updArr a i (a (i + 1))) (i + 1) stop fuel else a

/-- `BPlusTreeLeafPage::Remove(offset)`: rejects only `offset >= GetSize()`
— a negative offset (the `-1` of a failed `SearchKey`) passes the guard,
shifts every entry down one slot (the first write lands at `array_[-1]`,
modelled as index `-1` of the unbounded array) and decrements the size. -/
def leafRemoveAt (p : LeafNode) (offset : Int) : Bool × LeafNode :=
  if offset ≥ p.size then (false, p)
  else
    let a := shiftDownLoop p.arr offset (p.size - 1) ((p.size - 1 - offset).toNat + 1)
    (true, { p with arr := a, size := p.size - 1 })

/-- `BPlusTreeInternalPage`: common header plus the (key, child-page-id)
array; slot 0's key is unused. -/
structure InternalNode where
  arr : Int → Int × Int
  size : Int
  max_size : Int
  page_type : Int

/-- `KeyAt`. -/
def internalKeyAt (p : InternalNode) (i : Int) : Int := (p.arr i).1

/-- `ValueAt`. -/
def internalValueAt (p : InternalNode) (i : Int) : Int := (p.arr i).2

/-- `SetKeyAt`. -/
def internalSetKeyAt (p : InternalNode) (i : Int) (key : Int) : InternalNode :=
  { p with arr := updArr p.arr i (key, (p.arr i).2) }

/-- `SetValueAt`. -/
def internalSetValueAt (p : InternalNode) (i : Int) (value : Int) : InternalNode :=
  { p with arr := updArr p.arr i ((p.arr i).1, value) }

/-- `SetMappingAt`: ignored when `index >= GetMaxSize()`. -/
def internalSetMappingAt (p : InternalNode) (index : Int) (map : Int × Int) : InternalNode :=
  if index ≥ p.max_size then p else { p with arr := updArr p.arr index map }

/-- `PlaceHead`: stores the leftmost child pointer in slot 0's value and
bumps the size. -/
def internalPlaceHead (p : InternalNode) (value : Int) : InternalNode :=
  { p with arr := updArr p.arr 0 ((p.arr 0).1, value), size := p.size + 1 }

/-- The binary-search loop of `BPlusTreeInternalPage::PlaceMapping` (lines
111-126): `pos` is decided only when the interval narrows to `l == r`; if
the loop instead exits with `l > r`, `pos` keeps its initial value `1`. -/
def internalPMLoop (p : InternalNode) (key : Int) (l r : Int) : Nat → Int
  | 0 => 1
  | fuel + 1 =>
    if l ≤ r then
      if l = r then (if keyComp (internalKeyAt p l) key = -1 then l + 1 else l)
      else
        let mid := (l + r) / 2
        if keyComp (internalKeyAt p mid) key = -1 then internalPMLoop p key (mid + 1) r fuel
        else internalPMLoop p key l (mid - 1) fuel
    else 1

/-- `BPlusTreeInternalPage::PlaceMapping`: an empty page stores the mapping
at slot 1; a full page returns `false`; otherwise the entry is inserted at
the searched position. -/
def internalPlaceMapping (p : InternalNode) (key value : Int) : Bool × InternalNode :=
  if p.size = 0 then
    (true, { p with arr := updArr p.arr 1 (key, value), size := p.size + 1 })
  else
    if p.size = p.max_size then (false, p)
    else
      let pos := internalPMLoop p key 1 (p.size - 1) (p.size.toNat + 2)
      let a := shiftUpLoop p.arr (p.size - 1) pos (p.size.toNat + 2)
      (true, { p with arr := updArr a pos (key, value), size := p.size + 1 })

/-- The binary-search loop of `BPlusTreeInternalPage::SearchKey` (lines
146-169): decided only at `l == r` (`pos = l + 1` when `array_[l] <= key`,
else `pos = l`); an exit with `l > r` keeps the initial `pos = 1`. -/
def internalSKLoop (p : InternalNode) (key : Int) (l r : Int) : Nat → Int
  | 0 => 1
  | fuel + 1 =>
    if l ≤ r then
      if l = r then (if keyComp (internalKeyAt p l) key ≠ 1 then l + 1 else l)
      else
        let mid := (l + r) / 2
        if keyComp (internalKeyAt p mid) key = 1 then internalSKLoop p key l (mid - 1) fuel
        else internalSKLoop p key (mid + 1) r fuel
    else 1

/-- `BPlusTreeInternalPage::SearchKey`: intended (per the source comments)
to return the smallest index `i ≥ 1` whose key strictly exceeds the target,
or `GetSize()` when none does. -/
def internalSearchKey (p : InternalNode) (key : Int) : Int :=
  internalSKLoop p key 1 (p.size - 1) (p.size.toNat + 2)

/-! ## B+ tree index (`src/storage/index/b_plus_tree.cpp`)

The buffer pool behind the tree is modelled as a page store keyed by page
id: `FetchPageBasic` is a lookup (`none` when the id has no page — the
source would read an arbitrary disk page), `NewPageGuarded` hands out the
next page id backed by a zeroed frame, and guard pinning/unpinning is
invisible to the tree-shape claims.  A zeroed frame reinterpreted as a leaf
or internal page has `page_type_ = 0` (`INVALID_INDEX_PAGE`), `size_ = 0`,
`max_size_ = 0`, `next_page_id_ = 0`; the split paths of `Insert` use such
pages *without* calling `Init`.  Each page is stored with the variant (leaf
or internal) under which the source accesses it; `IsLeafPage()` is the
`page_type_ == LEAF_PAGE` test, and a cast that disagrees with the stored
variant is undefined behaviour (`none`). -/

/-- A page of the tree, tagged with the variant the source casts it to. -/
inductive Page where
  | leaf (l : LeafNode)
  | internal (i : InternalNode)

/-- `BPlusTreePage::IsLeafPage()`: `page_type_ == IndexPageType::LEAF_PAGE`. -/
def pageIsLeaf : Page → Bool
  | Page.leaf l => l.page_type = LEAF_PAGE
  | Page.internal i => i.page_type = LEAF_PAGE

/-- `BPlusTreePage::GetSize()`. -/
def pageSize : Page → Int
  | Page.leaf l => l.size
  | Page.internal i => i.size

/-- The cast `As<LeafPage>` / `AsMut<LeafPage>`. -/
def asLeaf : Page → Option LeafNode
  | Page.leaf l => some l
  | Page.internal _ => none

/-- The cast `As<InternalPage>` / `AsMut<InternalPage>`. -/
def asInternal : Page → Option InternalNode
  | Page.internal i => some i
  | Page.leaf _ => none

/-- B+ tree state: the page store, the header's `root_page_id_`, the page-id
allocation counter, and the construction parameters `leaf_max_size_` and
`internal_max_size_`. -/
structure BPTState where
  pages : List (Int × Page)
  root_page_id : Int
  next_page_id : Int
  leaf_max : Int
  internal_max : Int

/-- `FetchPageBasic` + cast target selection. -/
def getPage (st : BPTState) (pid : Int) : Option Page := lookupKey st.pages pid

/-- Write a page back into the store (the source mutates it in place through
the guard). -/
def setPage (st : BPTState) (pid : Int) (p : Page) : BPTState :=
  if containsKey st.pages pid then { st with pages := setKey st.pages pid p }
  else { st with pages := st.pages ++ [(pid, p)] }

/-- `NewPageGuarded`: allocate the next page id (backed by a zeroed frame). -/
def allocPid (st : BPTState) : Int × BPTState :=
  (st.next_page_id, { st with next_page_id := st.next_page_id + 1 })

/-- A freshly allocated zeroed frame viewed as a leaf page (the split paths
never call `Init` on it). -/
def zeroLeaf : LeafNode :=
  { arr := fun _ => (0, 0), size := 0, max_size := 0, next_page_id := 0, page_type := 0 }

/-- A freshly allocated zeroed frame viewed as an internal page (no `Init`
is ever called on internal pages in this source). -/
def zeroInternal : InternalNode :=
  { arr := fun _ => (0, 0), size := 0, max_size := 0, page_type := 0 }

/-- `BPlusTreeLeafPage::Init()` with the defaulted `max_size` argument
(`LEAF_PAGE_SIZE`, from the header): leaf type, size 0, capped max size,
invalid next page. -/
def leafInitDefault : LeafNode :=
  { arr := fun _ => (0, 0), size := 0, max_size := min LEAF_PAGE_SIZE LEAF_PAGE_SIZE,
    next_page_id := INVALID_PAGE_ID, page_type := LEAF_PAGE }

/-- The shared descent loop of `GetValue`/`Insert`/`Remove`: from the root,
while the probed page is not a leaf, binary-search the internal page and
follow the child at slot `index - 1`, recording the internal pages passed
(the `ctx.basic_set_` stack, first element deepest is the *reverse* of the
push order; this returns the stack in push order). -/
def descendToLeaf (st : BPTState) (key : Int) : Int → List Int → Nat → Option (Int × List Int)
  | _, _, 0 => none
  | pid, path, fuel + 1 => do
    let pg ← getPage st pid
    if pageIsLeaf pg then some (pid, path)
    else do
      let ip ← asInternal pg
      let idx := internalSearchKey ip key
      descendToLeaf st key (internalValueAt ip (idx - 1)) (path ++ [pid]) fuel

/-- `BPlusTree::IsEmpty`: fetches the root page and tests `GetSize() == 0`
(for an `INVALID_PAGE_ID` root the source fetches an arbitrary disk page —
undefined, `none`). -/
def bptIsEmpty (st : BPTState) : Option Bool := do
  let pg ← getPage st st.root_page_id
  some (pageSize pg = 0)

/-- The descent-and-lookup loop of `BPlusTree::GetValue` after the
`IsEmpty` test. -/
def getValueGo (st : BPTState) (key : Int) : Int → Nat → Option (Bool × Option Int)
  | _, 0 => none
  | pid, fuel + 1 => do
    let pg ← getPage st pid
    if pageIsLeaf pg then do
      let ld ← asLeaf pg
      let idx := leafSearchKey ld key
      if idx ≠ -1 then some (true, some (leafValueAt ld idx)) else some (false, none)
    else do
      let ip ← asInternal pg
      let idx := internalSearchKey ip key
      getValueGo st key (internalValueAt ip (idx - 1)) fuel

/-- `BPlusTree::GetValue`: `(found?, value pushed into the result vector)`. -/
def bptGetValue (st : BPTState) (key : Int) (fuel : Nat) : Option (Bool × Option Int) := do
  let em ← bptIsEmpty st
  if em then some (false, none)
  else getValueGo st key st.root_page_id fuel

/-- The copy loop of the two leaf-split paths of `Insert`:
`for(int i = divide_index + 1; i < leaf_max_size_; i++)
new_page->PlaceMapping(leaf->KeyAt(i), leaf->ValueAt(i), …)`. -/
def placeRangeLeaf (dst src : LeafNode) (i hi : Int) : Nat → LeafNode
  | 0 => dst
  | fuel + 1 =>
    if i < hi then
      placeRangeLeaf ((leafPlaceMapping dst (leafKeyAt src i) (leafValueAt src i)).2) src
        (i + 1) hi fuel
    else dst

/-- The move loop of the internal-split step of `Insert`:
`for(int i = divide_index + 1; i < internal_max_size_; i++)
{ new_page->PlaceMapping(tracked->KeyAt(i), tracked->ValueAt(i), …);
tracked->IncreaseSize(-1); }`. -/
def moveRangeInternal (dst src : InternalNode) (i hi : Int) : Nat → InternalNode × InternalNode
  | 0 => (dst, src)
  | fuel + 1 =>
    if i < hi then
      moveRangeInternal
        ((internalPlaceMapping dst (internalKeyAt src i) (internalValueAt src i)).2)
        { src with size := src.size - 1 } (i + 1) hi fuel
    else (dst, src)

/-- The compaction loop of the internal split (lines 294-297):
`for(int k = 1; k < new_page->GetSize() - 1; k++)
{ SetKeyAt(k, KeyAt(k+1)); SetValueAt(k, ValueAt(k+1)); }`. -/
def compactInternal (p : InternalNode) (kk bound : Int) : Nat → InternalNode
  | 0 => p
  | fuel + 1 =>
    if kk < bound then
      compactInternal
        { p with arr := updArr p.arr kk (internalKeyAt p (kk + 1), internalValueAt p (kk + 1)) }
        (kk + 1) bound fuel
    else p

/-- The separator-propagation loop of `Insert` (lines 249-312), walking the
remembered internal path bottom-up (`rpath` is the `ctx.basic_set_` stack
popped from the back).  Returns `(root_splited, root_sibling, state)`; when
the stack empties with every visited page split, `root_splited` is still
`true` and `root_sibling` is the last promoted separator. -/
def insertUpLoop (key : Int) (im : Int) :
    BPTState → (Int × Int) → List Int → Nat → Option (Bool × (Int × Int) × BPTState)
  | st, sep, [], _ => some (true, sep, st)
  | _, _, _ :: _, 0 => none
  | st, sep, tp :: rest, fuel + 1 => do
    let pg ← getPage st tp
    let T ← asInternal pg
    if T.size < im then
      let T2 := (internalPlaceMapping T sep.1 sep.2).2
      some (false, sep, setPage st tp (Page.internal T2))
    else
      let (np, st1) := allocPid st
      let P0 := zeroInternal
      let divide := im / 2
      let P1 := { P0 with size := P0.size + 1 }
      let (P2, T2) := moveRangeInternal P1 T (divide + 1) im ((im - divide).toNat + 1)
      let (T3, P3) :=
        if keyComp (internalKeyAt P2 1) key ≠ 1 then
          (T2, (internalPlaceMapping P2 sep.1 sep.2).2)
        else ((internalPlaceMapping T2 sep.1 sep.2).2, P2)
      if P3.size ≥ T3.size then
        let sep2 := (internalKeyAt P3 1, np)
        let P4 := internalSetValueAt P3 0 (internalValueAt P3 1)
        let P5 := compactInternal P4 1 (P4.size - 1) (P4.size.toNat + 1)
        let P6 := { P5 with size := P5.size - 1 }
        let st2 := setPage (setPage st1 tp (Page.internal T3)) np (Page.internal P6)
        insertUpLoop key im st2 sep2 rest fuel
      else
        let sep2 := (internalKeyAt T3 (T3.size - 1), np)
        let P4 := internalSetValueAt P3 0 (internalValueAt T3 (T3.size - 1))
        let T4 := { T3 with size := T3.size - 1 }
        let st2 := setPage (setPage st1 tp (Page.internal T4)) np (Page.internal P4)
        insertUpLoop key im st2 sep2 rest fuel

/-- `BPlusTree::Insert`.  An empty tree creates and roots a fresh leaf.
Otherwise the descent finds the target leaf; a non-full leaf takes the
mapping via `PlaceMapping` — *whose return value the source discards* — and
the function returns `true` on every path.  A full leaf splits (with the
dedicated root-leaf path when the leaf is the root); the separator
propagates up the remembered path, and a split of the topmost page installs
a new root. -/
def bptInsert (st0 : BPTState) (key value : Int) (fuel : Nat) : Option (Bool × BPTState) :=
  if st0.root_page_id = INVALID_PAGE_ID then
    let (npid, st1) := allocPid st0
    let lf1 := (leafPlaceMapping leafInitDefault key value).2
    some (true, { setPage st1 npid (Page.leaf lf1) with root_page_id := npid })
  else do
    let (pid, path) ← descendToLeaf st0 key st0.root_page_id [] fuel
    let pg ← getPage st0 pid
    let L ← asLeaf pg
    if L.size < st0.leaf_max then
      let L2 := (leafPlaceMapping L key value).2
      some (true, setPage st0 pid (Page.leaf L2))
    else if pid = st0.root_page_id then
      let (sibPid, st1) := allocPid st0
      let divide := (st0.leaf_max - 1) / 2
      let S1 := placeRangeLeaf zeroLeaf L (divide + 1) st0.leaf_max
        ((st0.leaf_max - divide).toNat + 1)
      let L1 := { L with size := divide + 1 }
      let (L2, S2) :=
        if keyComp (leafKeyAt S1 0) key ≠ 1 then (L1, (leafPlaceMapping S1 key value).2)
        else ((leafPlaceMapping L1 key value).2, S1)
      let S3 := { S2 with page_type := LEAF_PAGE, next_page_id := L2.next_page_id }
      let L3 := { L2 with next_page_id := sibPid }
      let st2 := setPage (setPage st1 pid (Page.leaf L3)) sibPid (Page.leaf S3)
      let (rootPid, st3) := allocPid st2
      let R1 := internalPlaceHead zeroInternal st0.root_page_id
      let R2 := (internalPlaceMapping R1 (leafKeyAt S3 0) sibPid).2
      some (true, { setPage st3 rootPid (Page.internal R2) with root_page_id := rootPid })
    else do
      let (newPid, st1) := allocPid st0
      let divide := (st0.leaf_max - 1) / 2
      let N1 := placeRangeLeaf zeroLeaf L (divide + 1) st0.leaf_max
        ((st0.leaf_max - divide).toNat + 1)
      let L1 := { L with size := divide + 1 }
      let (L2, N2) :=
        if keyComp (leafKeyAt N1 0) key ≠ 1 then (L1, (leafPlaceMapping N1 key value).2)
        else ((leafPlaceMapping L1 key value).2, N1)
      let N3 := { N2 with page_type := LEAF_PAGE, next_page_id := L2.next_page_id }
      let L3 := { L2 with next_page_id := newPid }
      let st2 := setPage (setPage st1 pid (Page.leaf L3)) newPid (Page.leaf N3)
      let (rootSplit, rootSib, st3) ←
        insertUpLoop key st0.internal_max st2 (leafKeyAt N3 0, newPid) path.reverse fuel
      if rootSplit then
        let (nr, st4) := allocPid st3
        let R1 := internalPlaceHead zeroInternal st3.root_page_id
        let R2 := (internalPlaceMapping R1 rootSib.1 rootSib.2).2
        some (true, { setPage st4 nr (Page.internal R2) with root_page_id := nr })
      else some (true, st3)

/-- The copy loop of the leaf merges in `Remove`:
`for(int i = 0; i < n; i++) dst->SetMappingAt(i + off, src pair at i);`
(`SetMappingAt` silently drops writes at `index >= GetMaxSize()`). -/
def leafCopyInto (dst src : LeafNode) (off i n : Int) : Nat → LeafNode
  | 0 => dst
  | fuel + 1 =>
    if i < n then
      leafCopyInto (leafSetMappingAt dst (i + off) (leafKeyAt src i, leafValueAt src i)) src
        off (i + 1) n fuel
    else dst

/-- The separator-splice loop of the leaf merges:
`for(int i = start; i < parent->GetSize() - 1; i++)
parent->SetMappingAt(i, (parent->KeyAt(i+1), parent->ValueAt(i+1)));`. -/
def internalSpliceLoop (p : InternalNode) (i bound : Int) : Nat → InternalNode
  | 0 => p
  | fuel + 1 =>
    if i < bound then
      internalSpliceLoop
        (internalSetMappingAt p i (internalKeyAt p (i + 1), internalValueAt p (i + 1)))
        (i + 1) bound fuel
    else p

/-- The entry-shift loop of the leaf borrow-from-right path:
`for(int i = 0; i < size - 1; i++) right->SetMappingAt(i, pair at i+1);`. -/
def shiftEntriesLeft (p : LeafNode) (i bound : Int) : Nat → LeafNode
  | 0 => p
  | fuel + 1 =>
    if i < bound then
      shiftEntriesLeft (leafSetMappingAt p i (leafKeyAt p (i + 1), leafValueAt p (i + 1)))
        (i + 1) bound fuel
    else p

/-- Same shift loop on an internal page (borrow-from-right at the internal
level, lines 557-560). -/
def shiftInternalLeft (p : InternalNode) (i bound : Int) : Nat → InternalNode
  | 0 => p
  | fuel + 1 =>
    if i < bound then
      shiftInternalLeft
        (internalSetMappingAt p i (internalKeyAt p (i + 1), internalValueAt p (i + 1)))
        (i + 1) bound fuel
    else p

/-- The guard `sibling != nullptr && sibling->GetSize() > threshold` shared
by the borrow attempts of `Remove`, applied to a fetched leaf sibling. -/
def pickLeafSibling (opt : Option (Int × LeafNode)) (threshold : Int) :
    Option (Int × LeafNode) :=
  match opt with
  | some (p, d) => if d.size > threshold then some (p, d) else none
  | none => none

/-- The same guard for a fetched internal sibling. -/
def pickInternalSibling (opt : Option (Int × InternalNode)) (threshold : Int) :
    Option (Int × InternalNode) :=
  match opt with
  | some (p, d) => if d.size > threshold then some (p, d) else none
  | none => none

/-- The internal-level redistribute/recurse loop of `Remove` (lines
506-574): walk the remaining stack while the probed internal page is below
`internal_max_size_/2`; try borrowing through the parent separator from the
left then the right sibling; *no internal merge is implemented* — when
neither sibling can lend, the iteration changes nothing and the walk simply
moves to the parent. -/
def removeUpLoop (key : Int) : BPTState → Int → List Int → Nat → Option BPTState
  | st, _, [], _ => some st
  | _, _, _ :: _, 0 => none
  | st, probePid, ppid :: rest, fuel + 1 => do
    let ppg ← getPage st probePid
    let T ← asInternal ppg
    if ¬ (T.size < st.internal_max / 2) then some st
    else do
      let papg ← getPage st ppid
      let P ← asInternal papg
      let key_index := internalSearchKey P key - 1
      let leftOpt ←
        if key_index - 1 ≥ 0 then do
          let lpid := internalValueAt P (key_index - 1)
          let lpg ← getPage st lpid
          let ld ← asInternal lpg
          some (some (lpid, ld))
        else some none
      let rightOpt ←
        if key_index + 1 ≤ st.internal_max - 1 then do
          let rpid := internalValueAt P (key_index + 1)
          let rpg ← getPage st rpid
          let rd ← asInternal rpg
          some (some (rpid, rd))
        else some none
      match pickInternalSibling leftOpt (st.internal_max / 2) with
      | some (lpid, ld) =>
        let sz := ld.size
        let orphan := (internalKeyAt ld (sz - 1), internalValueAt ld (sz - 1))
        let T2 := (internalPlaceMapping T (internalKeyAt P key_index) INVALID_PAGE_ID).2
        let T3 := internalSetValueAt T2 0 orphan.2
        let P2 := internalSetKeyAt P key_index orphan.1
        let ld2 := { ld with size := ld.size - 1 }
        let st2 := setPage (setPage (setPage st probePid (Page.internal T3)) ppid
          (Page.internal P2)) lpid (Page.internal ld2)
        removeUpLoop key st2 ppid rest fuel
      | none =>
        match pickInternalSibling rightOpt (st.internal_max / 2) with
        | some (rpid, rd) =>
          let sz := rd.size
          let orphan := (internalKeyAt rd 1, internalValueAt rd 0)
          let T2 := (internalPlaceMapping T (internalKeyAt P (key_index + 1)) INVALID_PAGE_ID).2
          let T3 := internalSetValueAt T2 (T2.size - 1) orphan.2
          let P2 := internalSetKeyAt P (key_index + 1) orphan.1
          let rd2 := internalSetValueAt rd 0 (internalValueAt rd 1)
          let rd3 := shiftInternalLeft rd2 1 (sz - 1) (sz.toNat + 1)
          let rd4 := { rd3 with size := rd3.size - 1 }
          let st2 := setPage (setPage (setPage st probePid (Page.internal T3)) ppid
            (Page.internal P2)) rpid (Page.internal rd4)
          removeUpLoop key st2 ppid rest fuel
        | none => removeUpLoop key st ppid rest fuel

/-- The leaf-merge fallback of `Remove` (lines 453-575), reached when
neither sibling can lend an entry.  The size comparison
`left_data->GetSize() <= right_data->GetSize()` dereferences *both*
sibling pointers, so a missing sibling is a null dereference (`none`).
Merging into the left sibling copies this leaf's entries after the left's
and splices the parent separator at `key_index`; merging the right sibling
into this leaf is symmetric.  The internal-level loop then walks the
remaining stack. -/
def bptRemoveMergePhase (st1 : BPTState) (pid tp : Int) (L1 : LeafNode) (T : InternalNode)
    (key : Int) (leftOpt rightOpt : Option (Int × LeafNode)) (rpath : List Int)
    (fuel : Nat) : Option BPTState := do
  let (lpid, ld) ← leftOpt
  let (rpid, rd) ← rightOpt
  if ld.size ≤ rd.size then
    let key_index := internalSearchKey T key - 1
    let leaf_size := L1.size
    let left_size := ld.size
    let ld2 := leafCopyInto ld L1 left_size 0 leaf_size (leaf_size.toNat + 1)
    let T2 := internalSpliceLoop T key_index (T.size - 1) (T.size.toNat + 1)
    let ld3 := { ld2 with size := ld2.size + leaf_size }
    let L2 := { L1 with size := L1.size - leaf_size }
    let T3 := { T2 with size := T2.size - 1 }
    let st2 := setPage (setPage (setPage st1 lpid (Page.leaf ld3)) pid
      (Page.leaf L2)) tp (Page.internal T3)
    removeUpLoop key st2 tp rpath fuel
  else
    let key_index := internalSearchKey T key - 1
    let leaf_size := L1.size
    let right_size := rd.size
    let L2 := leafCopyInto L1 rd leaf_size 0 right_size (right_size.toNat + 1)
    let T2 := internalSpliceLoop T (key_index + 1) (T.size - 1) (T.size.toNat + 1)
    let L3 := { L2 with size := L2.size + right_size }
    let rd2 := { rd with size := rd.size - right_size }
    let T3 := { T2 with size := T2.size - 1 }
    let st2 := setPage (setPage (setPage st1 pid (Page.leaf L3)) rpid
      (Page.leaf rd2)) tp (Page.internal T3)
    removeUpLoop key st2 tp rpath fuel

/-- `BPlusTree::Remove`.  An empty tree returns at once.  Otherwise the
descent finds the target leaf, `SearchKey` locates the key (`-1` when
absent) and the leaf's `Remove` is called *unconditionally on that index*.
If the leaf then sits below `leaf_max_size_/2` (integer division) the
source rebalances: a root leaf only resets `root_page_id_` when emptied;
otherwise the parent is popped and a borrow from the left then the right
leaf sibling is attempted (siblings are addressed through `ValueAt` bounded
by `internal_max_size_ - 1`, not by the parent's size), falling back to the
merge phase. -/
def bptRemove (st0 : BPTState) (key : Int) (fuel : Nat) : Option BPTState :=
  if st0.root_page_id = INVALID_PAGE_ID then some st0
  else do
    let (pid, path) ← descendToLeaf st0 key st0.root_page_id [] fuel
    let pg ← getPage st0 pid
    let L ← asLeaf pg
    let del := leafSearchKey L key
    let L1 := (leafRemoveAt L del).2
    let st1 := setPage st0 pid (Page.leaf L1)
    if L1.size < st1.leaf_max / 2 then
      if pid = st1.root_page_id then
        if L1.size = 0 then some { st1 with root_page_id := INVALID_PAGE_ID }
        else some st1
      else do
        match path.reverse with
        | [] => none
        | tp :: rpath => do
          let tpg ← getPage st1 tp
          let T ← asInternal tpg
          let key_idx := internalSearchKey T key - 1
          let leftOpt ←
            if key_idx - 1 ≥ 0 then do
              let lpid := internalValueAt T (key_idx - 1)
              let lpg ← getPage st1 lpid
              let ld ← asLeaf lpg
              some (some (lpid, ld))
            else some none
          let rightOpt ←
            if key_idx + 1 ≤ st1.internal_max - 1 then do
              let rpid := internalValueAt T (key_idx + 1)
              let rpg ← getPage st1 rpid
              let rd ← asLeaf rpg
              some (some (rpid, rd))
            else some none
          match pickLeafSibling leftOpt (st1.leaf_max / 2) with
          | some (lpid, ld) =>
            let sz := ld.size
            let orphan := (leafKeyAt ld (sz - 1), leafValueAt ld (sz - 1))
            let L2 := (leafPlaceMapping L1 orphan.1 orphan.2).2
            let ld2 := { ld with size := ld.size - 1 }
            let T2 := internalSetKeyAt T key_idx orphan.1
            some (setPage (setPage (setPage st1 pid (Page.leaf L2)) lpid (Page.leaf ld2)) tp
              (Page.internal T2))
          | none =>
            match pickLeafSibling rightOpt (st1.leaf_max / 2) with
            | some (rpid, rd) =>
              let sz := rd.size
              let orphan := (leafKeyAt rd 0, leafValueAt rd 0)
              let L2 := (leafPlaceMapping L1 orphan.1 orphan.2).2
              let rd2 := shiftEntriesLeft rd 0 (sz - 1) (sz.toNat + 1)
              let rd3 := { rd2 with size := rd2.size - 1 }
              let T2 := internalSetKeyAt T key_idx (leafKeyAt rd3 0)
              some (setPage (setPage (setPage st1 pid (Page.leaf L2)) rpid (Page.leaf rd3)) tp
                (Page.internal T2))
            | none => bptRemoveMergePhase st1 pid tp L1 T key leftOpt rightOpt rpath fuel
    else some st1

/-! ## Test fixtures and projections -/

/-- Build an in-page array from an entry list (fixture constructor). -/
def arrOfPairs (l : List (Int × Int)) : Int → Int × Int :=
  fun i => if i ≥ 0 then l.getD i.toNat (0, 0) else (0, 0)

/-- A leaf page holding the given entries. -/
def mkLeaf (entries : List (Int × Int)) (maxs nxt : Int) : LeafNode :=
  { arr := arrOfPairs entries, size := entries.length, max_size := maxs,
    next_page_id := nxt, page_type := LEAF_PAGE }

/-- An internal page holding the given (key, child) entries (slot 0's key
unused). -/
def mkInternal (entries : List (Int × Int)) (maxs : Int) : InternalNode :=
  { arr := arrOfPairs entries, size := entries.length, max_size := maxs,
    page_type := INTERNAL_PAGE }

/-- A freshly constructed tree: empty store, invalid root, fan-outs as the
constructor parameters `leaf_max_size` / `internal_max_size`. -/
def bptEmpty (lm im : Int) : BPTState :=
  { pages := [], root_page_id := INVALID_PAGE_ID, next_page_id := 1,
    leaf_max := lm, internal_max := im }

/-- Size of the page stored at `pid`. -/
def pageSizeAt (st : BPTState) (pid : Int) : Option Int := (getPage st pid).map pageSize

/-- Entry `i` of the leaf page stored at `pid`. -/
def leafEntryAt (st : BPTState) (pid i : Int) : Option (Int × Int) := do
  let pg ← getPage st pid
  let l ← asLeaf pg
  some (l.arr i)

/-- Is the page stored at `pid` a leaf? -/
def isLeafAt (st : BPTState) (pid : Int) : Option Bool := (getPage st pid).map pageIsLeaf

/-- `next_page_id_` of the leaf stored at `pid`. -/
def leafNextAt (st : BPTState) (pid : Int) : Option Int := do
  let pg ← getPage st pid
  let l ← asLeaf pg
  some l.next_page_id

/-- A full leaf with `max_size = 2`: both hypotheses hold concretely and the
conclusion follows by the theorem. -/
def c10leaf : LeafNode := mkLeaf [(1, 10), (2, 20)] 2 INVALID_PAGE_ID

/-! ## C1 — inserting a duplicate key

The claim: `insert` of a present key returns `false`, mutates nothing, and a
later `get_value` returns the originally stored value.  The source instead
ignores the return value of `PlaceMapping` and returns `true` on every path
(`b_plus_tree.cpp` has no `return false`), and `PlaceMapping` itself breaks
its binary search with `pos = mid` on an exact comparator match and inserts
the duplicate *in front of* the existing entry.  Scenario (`leaf_max =
internal_max = 3`): insert `(1, 10)` into an empty tree, then insert
`(1, 20)`. -/

/-- Tree after inserting `(1, 10)`: a single root leaf (page 1). -/
def c1before : Option BPTState := (bptInsert (bptEmpty 3 3) 1 10 20).map (·.2)

/-- The duplicate insert. -/
def c1after : Option (Bool × BPTState) := c1before.bind (fun st => bptInsert st 1 20 20)

/-! ## C2 — removing an absent key

The claim: `remove` of an absent key changes nothing.  In the source the
leaf's `SearchKey` returns `-1` for an absent key, and
`BPlusTreeLeafPage::Remove(-1)` passes its only guard (`offset >=
GetSize()`), shifts every entry one slot down and decrements the size —
destroying the leaf's *first* entry.  Scenario (`leaf_max = 3`): insert
`(1, 10)` and `(2, 20)`, then remove the absent key `3`. -/

/-- Tree holding keys 1 and 2 in the root leaf (page 1). -/
def c2before : Option BPTState := do
  let (_, s1) ← bptInsert (bptEmpty 3 3) 1 10 20
  let (_, s2) ← bptInsert s1 2 20 20
  some s2

/-- The remove of the absent key 3. -/
def c2after : Option BPTState := c2before.bind (fun st => bptRemove st 3 20)

/-! ## C3 — the balance bound

The claim: after any insert/remove sequence every non-root page has size
`≥ ⌈max_size/2⌉`.  The source enforces only the *floor* threshold
(`GetSize() < leaf_max_size_/2` with integer division), which is weaker for
odd fan-outs.  Scenario with `leaf_max = internal_max = 3`
(`⌈3/2⌉ = 2`): insert keys 1..4 (the fourth insert splits the root leaf,
page 1 keeping keys {1, 2}, new sibling page 2 taking {3, 4}, new root page
3), then remove key 1: page 1 drops to size 1 and `1 < 3/2 = 1` is false,
so no rebalancing happens. -/

/-- Final state of the scenario. -/
def c3after : Option BPTState := do
  let (_, s1) ← bptInsert (bptEmpty 3 3) 1 10 20
  let (_, s2) ← bptInsert s1 2 20 20
  let (_, s3) ← bptInsert s2 3 30 20
  let (_, s4) ← bptInsert s3 4 40 20
  bptRemove s4 1 20

/-! ## C6 — internal `SearchKey` and point lookup

The claim: on an internal page with strictly ascending keys at indices
`1..size-1` (`size ≥ 2`), `SearchKey` returns the least index `i ≥ 1` with
`key[i] > target` (`size` when none), making the descent reach the covering
leaf and `get_value` find every present key.  The source's loop decides
`pos` only when the interval narrows to `l == r`; when it instead exits via
`r < l` (which happens whenever the final probe `mid = l` satisfies
`key[mid] > target` with `l > 1`), the initial default `pos = 1` is
returned. -/

/-- A sorted internal page: keys 10, 20, 30, 40 at indices 1..4 (size 5),
children 200..204. -/
def c6page : InternalNode :=
  mkInternal [(0, 200), (10, 201), (20, 202), (30, 203), (40, 204)] 255

/-- A well-formed tree rooted at that internal page; the leaf key ranges
match the separators, and key 25 sits in leaf 202. -/
def c6tree : BPTState :=
  { pages := [(100, Page.internal c6page),
              (200, Page.leaf (mkLeaf [(5, 50)] 255 201)),
              (201, Page.leaf (mkLeaf [(10, 101), (15, 151)] 255 202)),
              (202, Page.leaf (mkLeaf [(20, 201), (25, 251)] 255 203)),
              (203, Page.leaf (mkLeaf [(30, 301), (35, 351)] 255 204)),
              (204, Page.leaf (mkLeaf [(40, 401), (45, 451)] 255 INVALID_PAGE_ID))],
    root_page_id := 100, next_page_id := 300, leaf_max := 4, internal_max := 5 }

/-! ## C7 — move-assignment of a basic page guard

The claim: move-assignment drops the destination first (unpinning its page
exactly once when non-empty), then transfers ownership.  The source's
`operator=` only copies the three fields and empties the source — it never
calls `Drop`/`UnpinPage` on the destination, leaking the destination's
pin. -/

/-- A destination guard owning page 1. -/
def c7dst : BasicPageGuard := { bpm := true, page := some 1, is_dirty := false }

/-- A source guard owning page 2. -/
def c7src : BasicPageGuard := { bpm := true, page := some 2, is_dirty := true }

/-! ## C8 — double drop

The claim: after `Drop` the guard is empty and a second `Drop` (or
destruction after `Drop`) is a no-op for all three variants.  The basic
guard's `Drop` does check for the empty state, and every destructor checks
before calling `Drop`; but `ReadPageGuard::Drop` and `WritePageGuard::Drop`
begin with `guard_.page_->RUnlatch()` / `WUnlatch()` with no null check, so
an explicit second `Drop` dereferences the null page pointer. -/

/-- A read guard owning page 1. -/
def c8read : ReadPageGuard := ⟨{ bpm := true, page := some 1, is_dirty := false }⟩

/-- A write guard owning page 3. -/
def c8write : WritePageGuard := ⟨{ bpm := true, page := some 3, is_dirty := false }⟩

/-- A basic guard owning page 4. -/
def c8basic : BasicPageGuard := { bpm := true, page := some 4, is_dirty := false }

/-- An empty replacer: frame 5 has no node. -/
def c9empty : LRUKReplacer := { node_store := [], curr_size := 0, replacer_size := 7, k := 2 }

/-- A replacer with a single evictable node for frame 3. -/
def c9one : LRUKReplacer :=
  { node_store := [(3, { history := [4], fid := 3, is_evictable := true })],
    curr_size := 1, replacer_size := 7, k := 2 }

/-- A pool whose only frame holds page 7 with pin count 0 and a clean dirty
bit. -/
def c5pool : BufferPool :=
  { frames := [{ page_id := 7, pin_count := 0, is_dirty := false }],
    page_table := [(7, 0)],
    free_list := [],
    replacer := { node_store := [(0, { history := [1], fid := 0, is_evictable := true })],
                  curr_size := 1, replacer_size := 1, k := 2 },
    next_page_id := 8 }

/-- A pool whose only frame holds page 7 pinned once. -/
def c5pinned : BufferPool :=
  { frames := [{ page_id := 7, pin_count := 1, is_dirty := false }],
    page_table := [(7, 0)],
    free_list := [],
    replacer := { node_store := [(0, { history := [1], fid := 0, is_evictable := false })],
                  curr_size := 0, replacer_size := 1, k := 2 },
    next_page_id := 8 }

/-! ## C4 — the eviction choice

Vocabulary of the claim, over a node of the replacer: a frame with fewer
than `k` recorded accesses has infinite K-distance; among frames with `k`
accesses, the largest K-distance `now - (k-th most recent timestamp)` means
the smallest `GetBackward k`; ties among infinite-distance frames are broken
by the earliest *oldest* recorded timestamp, which is `GetBackward
(history length)`.  `keyval` is the comparison key the source's loop
actually uses for a node (oldest timestamp for an infinite-distance node,
`k`-th most recent otherwise), and `rank` linearises the lexicographic
order (infinite class first, then `keyval`) into `Nat`. -/

/-- Fewer than `k` recorded accesses: infinite K-distance. -/
def infiniteDist (k : Nat) (n : LRUKNode) : Prop := n.history.length < k

instance (k : Nat) (n : LRUKNode) : Decidable (infiniteDist k n) := by
  unfold infiniteDist; infer_instance

/-- The comparison key `SelectEvictableNode` uses for a node. -/
def keyval (k : Nat) (n : LRUKNode) : Nat :=
  if n.history.length < k then n.GetBackward n.history.length else n.GetBackward k

/-- Linearisation of the claim's preference order: every infinite-distance
node ranks below (is preferred to) every finite-distance node, and within a
class the smaller `keyval` ranks lower.  Sound as long as `keyval < sizeMax`
for the nodes compared. -/
def rank (k : Nat) (n : LRUKNode) : Nat :=
  (if n.history.length < k then 0 else sizeMax + 1) + keyval k n

/-- The claim's strict preference of node `n` over node `m`: `n` has
infinite K-distance and `m` does not; or both are infinite and `n`'s oldest
recorded timestamp is earlier; or both have `k` accesses and `n`'s `k`-th
most recent timestamp is older (equivalently, `n`'s K-distance
`now − GetBackward k` is larger). -/
def claimPrefers (k : Nat) (n m : LRUKNode) : Prop :=
  (infiniteDist k n ∧ ¬ infiniteDist k m) ∨
  (infiniteDist k n ∧ infiniteDist k m ∧
    n.GetBackward n.history.length < m.GetBackward m.history.length) ∨
  (¬ infiniteDist k n ∧ ¬ infiniteDist k m ∧ n.GetBackward k < m.GetBackward k)

/-- Well-formedness of a reachable replacer state: distinct frame ids;
`curr_size_` counts the evictable nodes; frame ids are within
`replacer_size_`; every evictable node's history is capped at `k`
(`AddRecord` maintains this) with a genuine comparison key (timestamps are
microsecond counts, far below `SIZE_MAX`); and — the spec's strictly
increasing timestamp source — distinct evictable frames have distinct
comparison keys. -/
def replacerWF (r : LRUKReplacer) : Prop :=
  nodupKeys r.node_store ∧
  r.curr_size = countEvictable r.node_store ∧
  (∀ e ∈ r.node_store, e.1 ≤ r.replacer_size) ∧
  (∀ e ∈ r.node_store, e.2.is_evictable = true →
    e.2.history.length ≤ r.k ∧ keyval r.k e.2 < sizeMax) ∧
  (∀ e1 ∈ r.node_store, ∀ e2 ∈ r.node_store, e1.1 ≠ e2.1 →
    e1.2.is_evictable = true → e2.2.is_evictable = true →
    rank r.k e1.2 ≠ rank r.k e2.2)

instance (r : LRUKReplacer) : Decidable (replacerWF r) := by
  unfold replacerWF; infer_instance

/-- Well-formedness of the evictable nodes of a sub-list, as needed by the
selection-loop induction. -/
def storeWF (k : Nat) (l : List (Nat × LRUKNode)) : Prop :=
  ∀ e ∈ l, e.2.is_evictable = true → e.2.history.length ≤ k ∧ keyval k e.2 < sizeMax

/-- A replacer with `k = 2` holding two evictable frames: frame 0 has a
single access at time 5 (infinite K-distance), frame 1 has accesses at times
1 and 2. -/
def c4replacer : LRUKReplacer :=
  { node_store := [(0, { history := [5], fid := 0, is_evictable := true }),
                   (1, { history := [1, 2], fid := 1, is_evictable := true })],
    curr_size := 2, replacer_size := 7, k := 2 }

/-! ## Theorems -/

theorem lookupKey_of_mem {κ α : Type} [DecidableEq κ] {l : List (κ × α)} {e : κ × α}
    (hmem : e ∈ l) (hnd : nodupKeys l) : lookupKey l e.1 = some e.2 := by
  induction l with
  | nil => cases hmem
  | cons hd tl ih =>
    rcases List.mem_cons.mp hmem with h | h
    · subst h; simp [lookupKey]
    · have hne : hd.1 ≠ e.1 := (List.pairwise_cons.mp hnd).1 e h
      simp only [lookupKey, if_neg hne]
      exact ih h ((List.pairwise_cons.mp hnd).2)

theorem lookupKey_mem {κ α : Type} [DecidableEq κ] {l : List (κ × α)} {key : κ} {v : α}
    (h : lookupKey l key = some v) : (key, v) ∈ l := by
  induction l with
  | nil => simp [lookupKey] at h
  | cons hd tl ih =>
    by_cases hk : hd.1 = key
    · simp only [lookupKey, if_pos hk] at h
      have : hd = (key, v) := by
        cases hd; cases h; cases hk; rfl
      rw [← this]; exact List.mem_cons_self _ _
    · simp only [lookupKey, if_neg hk] at h
      exact List.mem_cons_of_mem _ (ih h)

theorem lookupKey_setKey_self {κ α : Type} [DecidableEq κ] {l : List (κ × α)} {key : κ}
    (h : (lookupKey l key).isSome) (v : α) : lookupKey (setKey l key v) key = some v := by
  induction l with
  | nil => simp [lookupKey] at h
  | cons hd tl ih =>
    by_cases hk : hd.1 = key
    · simp [setKey, if_pos hk, lookupKey]
    · simp only [lookupKey, if_neg hk] at h
      simp [setKey, if_neg hk, lookupKey, ih h]

theorem lookupKey_setKey_other {κ α : Type} [DecidableEq κ] (l : List (κ × α)) (key g : κ)
    (hne : g ≠ key) (v : α) : lookupKey (setKey l key v) g = lookupKey l g := by
  induction l with
  | nil => simp [setKey]
  | cons hd tl ih =>
    by_cases hk : hd.1 = key
    · simp [setKey, if_pos hk, lookupKey, hk, if_neg (Ne.symm hne)]
    · simp only [setKey, if_neg hk, lookupKey]
      by_cases hg : hd.1 = g
      · simp [hg]
      · simp [hg, ih]

theorem lookupKey_eraseKey_other {κ α : Type} [DecidableEq κ] (l : List (κ × α)) (key g : κ)
    (hne : g ≠ key) : lookupKey (eraseKey l key) g = lookupKey l g := by
  induction l with
  | nil => simp [eraseKey]
  | cons hd tl ih =>
    by_cases hk : hd.1 = key
    · simp [eraseKey, if_pos hk, lookupKey, hk, if_neg (Ne.symm hne)]
    · simp only [eraseKey, if_neg hk, lookupKey]
      by_cases hg : hd.1 = g
      · simp [hg]
      · simp [hg, ih]

/-! ## C10 — a full leaf rejects `PlaceMapping` without mutation -/

/-- C10: for every leaf page whose size equals its `max_size` (with
`max_size ≥ 1`), `PlaceMapping` returns `false` and leaves the page — its
size and every stored entry — unchanged, for every argument key and value.
The page is not empty (`size = max_size ≥ 1`), so the
`GetSize() == GetMaxSize()` test fires before any mutation. -/
theorem full_leaf_placeMapping_rejects_unchanged (p : LeafNode) (key value : Int)
    (hfull : p.size = p.max_size) (hpos : 1 ≤ p.max_size) :
    leafPlaceMapping p key value = (false, p) := by
  unfold leafPlaceMapping
  have hne : ¬ p.size = 0 := by omega
  rw [if_neg hne, if_pos hfull]

theorem full_leaf_placeMapping_rejects_unchanged_witness :
    c10leaf.size = c10leaf.max_size ∧ 1 ≤ c10leaf.max_size ∧
    leafPlaceMapping c10leaf 5 50 = (false, c10leaf) :=
  ⟨by decide, by decide,
    full_leaf_placeMapping_rejects_unchanged c10leaf 5 50 (by decide) (by decide)⟩

/-- C1: evaluating the source on the duplicate insert: before the call the
root leaf has the single entry `(1, 10)`; the duplicate insert *returns
`true`*, grows the leaf to the two entries `(1, 20), (1, 10)`, and a
subsequent `get_value(1)` returns the *new* value `20`, not the originally
stored `10` — each of the claim's three guarantees fails. -/
theorem insert_duplicate_returns_true_and_mutates :
    (c1before.map (fun st => pageSizeAt st 1)) = some (some 1) ∧
    (c1before.map (fun st => leafEntryAt st 1 0)) = some (some (1, 10)) ∧
    (c1after.map (·.1)) = some true ∧
    (c1after.map (fun r => pageSizeAt r.2 1)) = some (some 2) ∧
    (c1after.map (fun r => leafEntryAt r.2 1 0)) = some (some (1, 20)) ∧
    (c1after.map (fun r => leafEntryAt r.2 1 1)) = some (some (1, 10)) ∧
    (c1after.bind (fun r => bptGetValue r.2 1 20)) = some (true, some 20) := by
  decide

/-- C2: evaluating the source: before, the root leaf holds `(1,10),(2,20)`
and its `SearchKey(3)` yields `-1` (key absent); after `remove(3)` the leaf
has size 1 and its only entry is `(2, 20)` — the mapping `(1, 10)` has been
destroyed by a supposed no-op. -/
theorem remove_absent_key_destroys_first_entry :
    (c2before.map (fun st => pageSizeAt st 1)) = some (some 2) ∧
    (c2before.map (fun st => leafEntryAt st 1 0)) = some (some (1, 10)) ∧
    (c2before.map (fun st => leafEntryAt st 1 1)) = some (some (2, 20)) ∧
    (c2before.bind (fun st => (getPage st 1).bind asLeaf)).map (fun l => leafSearchKey l 3)
      = some (-1) ∧
    (c2after.map (fun st => st.root_page_id)) = some 1 ∧
    (c2after.map (fun st => pageSizeAt st 1)) = some (some 1) ∧
    (c2after.map (fun st => leafEntryAt st 1 0)) = some (some (2, 20)) ∧
    (c2after.bind (fun st => bptGetValue st 1 20)) = some (false, none) := by
  decide

/-- C3: evaluating the source on the scenario: the final tree has root page
3, and page 1 is a non-root *leaf* of size 1, strictly below the claimed
minimum `⌈leaf_max/2⌉ = (3 + 1)/2 = 2`. -/
theorem balance_bound_violated_by_remove :
    (c3after.map (fun st => st.root_page_id)) = some 3 ∧
    (c3after.map (fun st => st.leaf_max)) = some 3 ∧
    (c3after.map (fun st => isLeafAt st 1)) = some (some true) ∧
    (c3after.map (fun st => pageSizeAt st 1)) = some (some 1) ∧
    (c3after.map (fun st => pageSizeAt st 2)) = some (some 2) ∧
    (((3 : Int) + 1) / 2 = 2) ∧ ((1 : Int) < 2) := by
  decide

/-- C6: evaluating the source at the failing input: the page is sorted with
`size = 5 ≥ 2`; for target 25 the least index with a strictly greater key is
3 (`key[2] = 20 ≤ 25 < 30 = key[3]`), but `SearchKey` returns the default 1;
descending through child `1 - 1 = 0` reaches leaf 200, whose range does not
cover 25, so `get_value(25)` reports *not found* although `(25, 251)` is
stored in leaf 202. -/
theorem internal_searchKey_returns_wrong_index :
    c6page.size = 5 ∧
    internalKeyAt c6page 1 = 10 ∧ internalKeyAt c6page 2 = 20 ∧
    internalKeyAt c6page 3 = 30 ∧ internalKeyAt c6page 4 = 40 ∧
    keyComp (internalKeyAt c6page 2) 25 = -1 ∧
    keyComp (internalKeyAt c6page 3) 25 = 1 ∧
    internalSearchKey c6page 25 = 1 ∧
    leafEntryAt c6tree 202 1 = some (25, 251) ∧
    bptGetValue c6tree 25 20 = some (false, none) ∧
    bptGetValue c6tree 35 20 = some (true, some 351) := by
  decide

/-- C7: evaluating the source's move-assignment on two non-empty guards: the
ownership transfer and source emptying do happen, but the event trace is
empty — page 1 is never unpinned — whereas the specified drop-first
assignment (`specMoveAssignDropsFirst`) emits exactly one `unpin 1`. -/
theorem move_assign_never_drops_destination :
    basicMoveAssign c7dst c7src =
      ({ bpm := true, page := some 2, is_dirty := true },
       { bpm := false, page := none, is_dirty := false }, []) ∧
    specMoveAssignDropsFirst c7dst c7src =
      ({ bpm := true, page := some 2, is_dirty := true },
       { bpm := false, page := none, is_dirty := false }, [GEvent.unpin 1]) ∧
    basicMoveAssign c7dst c7src ≠ specMoveAssignDropsFirst c7dst c7src := by
  decide

/-- C8: evaluating the source: the first read drop releases the latch and
unpins, leaving the guard empty; a *second* explicit `Drop` on the read and
write guards dereferences the null page (`none`), refuting the no-op claim
for those two variants, while the basic guard's double drop and
destruction-after-drop of the read guard are indeed no-ops. -/
theorem second_drop_dereferences_null_page :
    readDrop c8read = some (⟨⟨false, none, false⟩⟩, [GEvent.runlatch 1, GEvent.unpin 1]) ∧
    (readDrop c8read).bind (fun r => readDrop r.1) = none ∧
    (readDrop c8read).bind (fun r => readDestruct r.1) = some (⟨⟨false, none, false⟩⟩, []) ∧
    (writeDrop c8write).bind (fun r => writeDrop r.1) = none ∧
    (writeDrop c8write).bind (fun r => writeDestruct r.1) = some (⟨⟨false, none, false⟩⟩, []) ∧
    (basicDrop c8basic).bind (fun r => basicDrop r.1) = some (⟨false, none, false⟩, []) := by
  decide

/-! ## C9 — replacer `Remove` -/

theorem lookupKey_eq_none {κ α : Type} [DecidableEq κ] {l : List (κ × α)} {f : κ}
    (h : ∀ e ∈ l, e.1 ≠ f) : lookupKey l f = none := by
  induction l with
  | nil => rfl
  | cons hd tl ih =>
    simp only [lookupKey, if_neg (h hd (List.mem_cons_self hd tl))]
    exact ih (fun e he => h e (List.mem_cons_of_mem hd he))

theorem lookupKey_eraseKey_self {κ α : Type} [DecidableEq κ] {l : List (κ × α)}
    (hnd : nodupKeys l) (f : κ) : lookupKey (eraseKey l f) f = none := by
  induction l with
  | nil => rfl
  | cons hd tl ih =>
    by_cases hk : hd.1 = f
    · simp only [eraseKey, if_pos hk]
      exact lookupKey_eq_none (fun e he => hk ▸ ((List.pairwise_cons.mp hnd).1 e he).symm)
    · simp only [eraseKey, if_neg hk, lookupKey, if_neg hk]
      exact ih (List.pairwise_cons.mp hnd).2

/-- C9 amended: `Remove(frame_id)` on a frame with no node *returns
silently with the state unchanged* (the claimed assertion abort is
unreachable: the early `return` at lines 111-113 precedes the asserts); on
an existing evictable node it erases the node — afterwards the frame has no
node and every other frame's node is untouched — and decrements the
reported size by one; on an existing non-evictable node the
`BUSTUB_ASSERT(GetEvictable())` aborts. -/
theorem lrukRemove_characterization (r : LRUKReplacer) (f : Nat) :
    (lookupKey r.node_store f = none → lrukRemove r f = some r) ∧
    (∀ n, lookupKey r.node_store f = some n → n.is_evictable = true →
      nodupKeys r.node_store →
      ∃ rr, lrukRemove r f = some rr ∧
        rr.curr_size = r.curr_size - 1 ∧
        lookupKey rr.node_store f = none ∧
        (∀ g, g ≠ f → lookupKey rr.node_store g = lookupKey r.node_store g)) ∧
    (∀ n, lookupKey r.node_store f = some n → n.is_evictable = false →
      lrukRemove r f = none) := by
  refine ⟨?_, ?_, ?_⟩
  · intro h
    unfold lrukRemove
    rw [h]
  · intro n hn hev hnd
    unfold lrukRemove
    simp only [hn]
    rw [if_pos hev]
    exact ⟨_, rfl, rfl, lookupKey_eraseKey_self hnd f,
      fun g hg => lookupKey_eraseKey_other r.node_store f g hg⟩
  · intro n hn hev
    unfold lrukRemove
    simp only [hn]
    rw [if_neg (by simp [hev])]

/-- C9 counterexample: `Remove(5)` on a replacer with no node for frame 5
returns *normally with the state unchanged* (`some c9empty`): the claimed
programmer-error abort — `none` in this embedding, as every assertion
failure is modelled — does not happen. -/
theorem lrukRemove_unknown_frame_silent : lrukRemove c9empty 5 = some c9empty := by decide

theorem lrukRemove_characterization_witness :
    lookupKey c9one.node_store 3 = some { history := [4], fid := 3, is_evictable := true } ∧
    ∃ rr, lrukRemove c9one 3 = some rr ∧
      rr.curr_size = c9one.curr_size - 1 ∧
      lookupKey rr.node_store 3 = none ∧
      (∀ g, g ≠ 3 → lookupKey rr.node_store g = lookupKey c9one.node_store g) :=
  ⟨by decide, (lrukRemove_characterization c9one 3).2.1
    { history := [4], fid := 3, is_evictable := true } (by decide) (by decide) (by decide)⟩

/-! ## C5 — `UnpinPage` -/

/-- `SetEvictable` on an in-bounds frame whose node exists succeeds, and
afterwards the frame's node carries exactly the requested flag while every
other frame's node is untouched. -/
theorem lrukSetEvictable_spec (r : LRUKReplacer) (f : Nat) (flag : Bool) (n : LRUKNode)
    (hn : lookupKey r.node_store f = some n) (hb : (f : Int) ≤ (r.replacer_size : Int)) :
    ∃ rr, lrukSetEvictable r f flag = some rr ∧
      lookupKey rr.node_store f = some { n with is_evictable := flag } ∧
      (∀ g, g ≠ f → lookupKey rr.node_store g = lookupKey r.node_store g) := by
  unfold lrukSetEvictable
  rw [if_neg (by omega)]
  simp only [hn]
  by_cases hx : (n.is_evictable != flag) = true
  · rw [if_pos hx]
    refine ⟨_, rfl, ?_, ?_⟩
    · exact lookupKey_setKey_self (by simp [hn]) _
    · intro g hg
      exact lookupKey_setKey_other r.node_store f g hg _
  · rw [if_neg hx]
    have hflag : n.is_evictable = flag := by
      cases hev : n.is_evictable <;> cases hfl : flag <;> simp_all
    have hsame : ({ n with is_evictable := flag } : LRUKNode) = n := by
      cases n; simp_all
    exact ⟨r, rfl, hsame ▸ hn, fun _ _ => rfl⟩

/-- C5 amended: `unpin_page(page_id, d)` returns `false` when the page is
not resident — nothing changes — and when the frame's pin count is already
zero — in which case `d` is still ORed into the frame's dirty bit (the
source performs `page->is_dirty_ |= is_dirty;` *before* inspecting the pin
count) but nothing else changes; otherwise it ORs `d` into the dirty bit,
decrements the pin count, marks the frame evictable in the replacer exactly
when the count reaches zero, and returns `true`. -/
theorem unpinPage_characterization (bp : BufferPool) (pid : Int) (d : Bool) :
    (lookupKey bp.page_table pid = none → bpUnpinPage bp pid d = some (false, bp)) ∧
    (∀ fid frame, lookupKey bp.page_table pid = some fid →
      bp.frames.get? fid = some frame →
      frame.pin_count = 0 →
      bpUnpinPage bp pid d = some (false,
        { bp with
          frames := setAt bp.frames fid ({ frame with is_dirty := frame.is_dirty || d }) })) ∧
    (∀ fid frame n, lookupKey bp.page_table pid = some fid →
      bp.frames.get? fid = some frame →
      frame.pin_count > 0 →
      lookupKey bp.replacer.node_store fid = some n →
      (fid : Int) ≤ (bp.replacer.replacer_size : Int) →
      ∃ rep, lrukSetEvictable bp.replacer fid (decide (frame.pin_count - 1 = 0)) = some rep ∧
        bpUnpinPage bp pid d = some (true,
          { bp with
            frames := setAt bp.frames fid
              ({ frame with is_dirty := frame.is_dirty || d,
                            pin_count := frame.pin_count - 1 }),
            replacer := rep }) ∧
        lookupKey rep.node_store fid =
          some { n with is_evictable := decide (frame.pin_count - 1 = 0) }) := by
  refine ⟨?_, ?_, ?_⟩
  · intro h
    unfold bpUnpinPage
    rw [h]
  · intro fid frame hfid hframe hzero
    unfold bpUnpinPage
    simp only [hfid, hframe]
    rw [if_neg (by simp [hzero])]
  · intro fid frame n hfid hframe hpos hn hb
    obtain ⟨rep, hrep, hlook, _⟩ :=
      lrukSetEvictable_spec bp.replacer fid (decide (frame.pin_count - 1 = 0)) n hn hb
    refine ⟨rep, hrep, ?_, hlook⟩
    unfold bpUnpinPage
    simp only [hfid, hframe]
    rw [if_pos (by simp; omega), if_pos (by simp; omega)]
    simp only [hrep]

/-- C5 counterexample: `unpin_page(7, true)` on a resident page whose pin
count is already zero returns `false` as claimed, but the frame's dirty bit
— clean before the call — is `true` afterwards, so the claimed "the buffer
pool state, including the frame's dirty bit, is unchanged" fails. -/
theorem unpin_failure_sets_dirty_bit :
    (c5pool.frames.get? 0).map Frame.is_dirty = some false ∧
    bpUnpinPage c5pool 7 true =
      some (false, { c5pool with
        frames := [{ page_id := 7, pin_count := 0, is_dirty := true }] }) ∧
    bpUnpinPage c5pool 7 true ≠ some (false, c5pool) := by
  decide

theorem unpinPage_characterization_witness :
    lookupKey c5pinned.page_table 7 = some 0 ∧
    c5pinned.frames.get? 0 = some { page_id := 7, pin_count := 1, is_dirty := false } ∧
    ∃ rep, lrukSetEvictable c5pinned.replacer 0
        (decide (({ page_id := 7, pin_count := 1, is_dirty := false } : Frame).pin_count - 1 = 0))
        = some rep ∧
      bpUnpinPage c5pinned 7 true = some (true,
        { c5pinned with
          frames := setAt c5pinned.frames 0
            ({ (⟨7, 1, false⟩ : Frame) with
                is_dirty := false || true
                pin_count := (⟨7, 1, false⟩ : Frame).pin_count - 1 }),
          replacer := rep }) ∧
      lookupKey rep.node_store 0 =
        some { (⟨[1], 0, false⟩ : LRUKNode) with
          is_evictable :=
            decide (({ page_id := 7, pin_count := 1, is_dirty := false } : Frame).pin_count - 1 = 0) } :=
  ⟨by decide, by decide,
    (unpinPage_characterization c5pinned 7 true).2.2 0
      { page_id := 7, pin_count := 1, is_dirty := false }
      { history := [1], fid := 0, is_evictable := false }
      (by decide) (by decide) (by decide) (by decide) (by decide)⟩

theorem rank_lt_of_claimPrefers_aux (k : Nat) (n m : LRUKNode)
    (hn : keyval k n < sizeMax) (hm : keyval k m < sizeMax) :
    rank k n < rank k m ↔ claimPrefers k n m := by
  by_cases h1 : n.history.length < k <;> by_cases h2 : m.history.length < k
  · have e1 : keyval k n = n.GetBackward n.history.length := if_pos h1
    have e2 : keyval k m = m.GetBackward m.history.length := if_pos h2
    unfold rank claimPrefers infiniteDist
    rw [if_pos h1, if_pos h2, e1, e2]
    constructor
    · intro h; exact Or.inr (Or.inl ⟨h1, h2, by omega⟩)
    · rintro (⟨_, hc⟩ | ⟨_, _, hc⟩ | ⟨hc, _, _⟩) <;> first | omega | exact absurd h2 hc |
        exact absurd h1 hc
  · have e1 : keyval k n = n.GetBackward n.history.length := if_pos h1
    unfold rank claimPrefers infiniteDist
    rw [if_pos h1, if_neg h2]
    constructor
    · intro _; exact Or.inl ⟨h1, h2⟩
    · intro _; omega
  · have e2 : keyval k m = m.GetBackward m.history.length := if_pos h2
    unfold rank claimPrefers infiniteDist
    rw [if_neg h1, if_pos h2]
    constructor
    · intro h; omega
    · rintro (⟨hc, _⟩ | ⟨hc, _, _⟩ | ⟨_, hc, _⟩) <;> first | exact absurd hc h1 |
        exact absurd h2 hc
  · have e1 : keyval k n = n.GetBackward k := if_neg h1
    have e2 : keyval k m = m.GetBackward k := if_neg h2
    unfold rank claimPrefers infiniteDist
    rw [if_neg h1, if_neg h2, e1, e2]
    constructor
    · intro h; exact Or.inr (Or.inr ⟨h1, h2, by omega⟩)
    · rintro (⟨hc, _⟩ | ⟨hc, _, _⟩ | ⟨_, _, hc⟩) <;> first | exact absurd hc h1 | omega

theorem countEvictable_eq_zero_iff (l : List (Nat × LRUKNode)) :
    countEvictable l = 0 ↔ ∀ e ∈ l, e.2.is_evictable = false := by
  unfold countEvictable
  rw [List.length_eq_zero, List.filter_eq_nil]
  constructor
  · intro h e he
    have := h e he
    simpa using this
  · intro h e he
    simp [h e he]

theorem keyval_of_inf (k : Nat) (n : LRUKNode) (h : n.history.length < k) :
    keyval k n = n.GetBackward n.history.length := if_pos h

theorem keyval_of_fin (k : Nat) (n : LRUKNode) (h : ¬ n.history.length < k) :
    keyval k n = n.GetBackward k := if_neg h

theorem rank_of_inf (k : Nat) (n : LRUKNode) (h : n.history.length < k) :
    rank k n = n.GetBackward n.history.length := by
  unfold rank
  rw [if_pos h, keyval_of_inf k n h]
  omega

theorem rank_of_fin (k : Nat) (n : LRUKNode) (h : ¬ n.history.length < k) :
    rank k n = sizeMax + 1 + n.GetBackward k := by
  unfold rank
  rw [if_neg h, keyval_of_fin k n h]

theorem selectGo_cons_skip (k f : Nat) (n : LRUKNode) (rest : List (Nat × LRUKNode))
    (fid : Int) (inf : Bool) (least : Nat) (h : n.is_evictable = false) :
    selectGo k ((f, n) :: rest) fid inf least = selectGo k rest fid inf least := by
  simp only [selectGo]
  rw [if_pos h]

theorem selectGo_cons_inf_first (k f : Nat) (n : LRUKNode) (rest : List (Nat × LRUKNode))
    (fid : Int) (least : Nat) (h1 : n.is_evictable = true) (h2 : n.history.length < k) :
    selectGo k ((f, n) :: rest) fid false least =
      selectGo k rest (Int.ofNat f) true (n.GetBackward n.history.length) := by
  simp only [selectGo]
  rw [if_neg (by simp [h1]), if_pos (by simp [h2])]

theorem selectGo_cons_inf_cmp (k f : Nat) (n : LRUKNode) (rest : List (Nat × LRUKNode))
    (fid : Int) (least : Nat) (h1 : n.is_evictable = true) (h2 : n.history.length < k) :
    selectGo k ((f, n) :: rest) fid true least =
      (if n.GetBackward n.history.length < least then
        selectGo k rest (Int.ofNat f) true (n.GetBackward n.history.length)
      else selectGo k rest fid true least) := by
  simp only [selectGo]
  rw [if_neg (by simp [h1]), if_neg (by simp), if_pos (by simp [h2])]

theorem selectGo_cons_fin_cmp (k f : Nat) (n : LRUKNode) (rest : List (Nat × LRUKNode))
    (fid : Int) (least : Nat) (h1 : n.is_evictable = true) (h2 : n.history.length = k) :
    selectGo k ((f, n) :: rest) fid false least =
      (if n.GetBackward k < least then
        selectGo k rest (Int.ofNat f) false (n.GetBackward k)
      else selectGo k rest fid false least) := by
  have h3 : ¬ n.history.length < k := by omega
  simp only [selectGo]
  rw [if_neg (by simp [h1]), if_neg (by simp [h3]), if_neg (by simp [h3]),
    if_pos (by simp [h2])]

theorem selectGo_cons_fin_skip (k f : Nat) (n : LRUKNode) (rest : List (Nat × LRUKNode))
    (fid : Int) (least : Nat) (h1 : n.is_evictable = true) (h2 : n.history.length = k) :
    selectGo k ((f, n) :: rest) fid true least = selectGo k rest fid true least := by
  have h3 : ¬ n.history.length < k := by omega
  simp only [selectGo]
  rw [if_neg (by simp [h1]), if_neg (by simp [h3]), if_neg (by simp [h3]),
    if_neg (by simp), if_pos (by simp [h2])]

/-- Invariant of the selection loop once a best-so-far node `good` (frame
`f0`) is held: the loop returns an evictable candidate (or `good` itself)
that ranks no worse than `good` and than every evictable node of the
remaining list. -/
theorem selectGo_held (k : Nat) (l : List (Nat × LRUKNode)) :
    ∀ (f0 : Nat) (good : LRUKNode), storeWF k l → good.history.length ≤ k →
    keyval k good < sizeMax →
    ∃ g m,
      selectGo k l (Int.ofNat f0) (decide (good.history.length < k)) (keyval k good) =
        some (Int.ofNat g) ∧
      ((g = f0 ∧ m = good) ∨ ((g, m) ∈ l ∧ m.is_evictable = true)) ∧
      m.history.length ≤ k ∧ keyval k m < sizeMax ∧
      rank k m ≤ rank k good ∧
      (∀ e ∈ l, e.2.is_evictable = true → rank k m ≤ rank k e.2) := by
  induction l with
  | nil =>
    intro f0 good _ hg1 hg2
    exact ⟨f0, good, rfl, Or.inl ⟨rfl, rfl⟩, hg1, hg2, le_refl _, by simp⟩
  | cons e rest ih =>
    intro f0 good hwf hg1 hg2
    obtain ⟨f, n⟩ := e
    have hwfrest : storeWF k rest := fun x hx hex => hwf x (List.mem_cons_of_mem _ hx) hex
    by_cases hev : n.is_evictable = false
    · obtain ⟨g, m, hsel, hmem, hm1, hm2, hrk, hall⟩ := ih f0 good hwfrest hg1 hg2
      refine ⟨g, m, ?_, ?_, hm1, hm2, hrk, ?_⟩
      · rw [selectGo_cons_skip k f n rest _ _ _ hev]
        exact hsel
      · rcases hmem with h | ⟨h1, h2⟩
        · exact Or.inl h
        · exact Or.inr ⟨List.mem_cons_of_mem _ h1, h2⟩
      · intro x hx hex
        rcases List.mem_cons.mp hx with h | h
        · rw [h] at hex
          exact absurd hex (by simp [hev])
        · exact hall x h hex
    · have hev' : n.is_evictable = true := by
        cases h : n.is_evictable
        · exact absurd h hev
        · rfl
      have hnlen : n.history.length ≤ k := (hwf (f, n) (List.mem_cons_self _ _) hev').1
      have hnkv : keyval k n < sizeMax := (hwf (f, n) (List.mem_cons_self _ _) hev').2
      by_cases hni : n.history.length < k
      · -- the head node has infinite K-distance
        have ekn : keyval k n = n.GetBackward n.history.length := keyval_of_inf k n hni
        have ern : rank k n = n.GetBackward n.history.length := rank_of_inf k n hni
        have edn : decide (n.history.length < k) = true := by simp [hni]
        by_cases hgi : good.history.length < k
        · -- held best is also infinite: compare oldest timestamps
          have edg : decide (good.history.length < k) = true := by simp [hgi]
          have ekg : keyval k good = good.GetBackward good.history.length :=
            keyval_of_inf k good hgi
          have erg : rank k good = good.GetBackward good.history.length :=
            rank_of_inf k good hgi
          rw [edg, selectGo_cons_inf_cmp k f n rest _ _ hev' hni]
          by_cases hc : n.GetBackward n.history.length < keyval k good
          · rw [if_pos hc]
            obtain ⟨g, m, hsel, hmem, hm1, hm2, hrk, hall⟩ := ih f n hwfrest hnlen hnkv
            rw [edn, ekn] at hsel
            refine ⟨g, m, hsel, ?_, hm1, hm2, ?_, ?_⟩
            · rcases hmem with ⟨h1, h2⟩ | ⟨h1, h2⟩
              · exact Or.inr ⟨by rw [h1, h2]; exact List.mem_cons_self _ _, h2 ▸ hev'⟩
              · exact Or.inr ⟨List.mem_cons_of_mem _ h1, h2⟩
            · rw [erg]
              rw [ern] at hrk
              rw [ekg] at hc
              omega
            · intro x hx hex
              rcases List.mem_cons.mp hx with h | h
              · rw [h]
                show rank k m ≤ rank k n
                exact hrk
              · exact hall x h hex
          · rw [if_neg hc]
            obtain ⟨g, m, hsel, hmem, hm1, hm2, hrk, hall⟩ := ih f0 good hwfrest hg1 hg2
            rw [edg] at hsel
            refine ⟨g, m, hsel, ?_, hm1, hm2, hrk, ?_⟩
            · rcases hmem with h | ⟨h1, h2⟩
              · exact Or.inl h
              · exact Or.inr ⟨List.mem_cons_of_mem _ h1, h2⟩
            · intro x hx hex
              rcases List.mem_cons.mp hx with h | h
              · rw [h]
                show rank k m ≤ rank k n
                have : rank k good ≤ rank k n := by
                  rw [erg, ern]
                  rw [ekg] at hc
                  omega
                omega
              · exact hall x h hex
        · -- held best is finite, head node infinite: head unconditionally replaces it
          have edg : decide (good.history.length < k) = false := by simp [hgi]
          have erg : rank k good = sizeMax + 1 + good.GetBackward k := rank_of_fin k good hgi
          rw [edg, selectGo_cons_inf_first k f n rest _ _ hev' hni]
          obtain ⟨g, m, hsel, hmem, hm1, hm2, hrk, hall⟩ := ih f n hwfrest hnlen hnkv
          rw [edn, ekn] at hsel
          refine ⟨g, m, hsel, ?_, hm1, hm2, ?_, ?_⟩
          · rcases hmem with ⟨h1, h2⟩ | ⟨h1, h2⟩
            · exact Or.inr ⟨by rw [h1, h2]; exact List.mem_cons_self _ _, h2 ▸ hev'⟩
            · exact Or.inr ⟨List.mem_cons_of_mem _ h1, h2⟩
          · have : rank k n < rank k good := by
              rw [erg, ern]
              rw [ekn] at hnkv
              omega
            omega
          · intro x hx hex
            rcases List.mem_cons.mp hx with h | h
            · rw [h]
              show rank k m ≤ rank k n
              exact hrk
            · exact hall x h hex
      · -- the head node has exactly k accesses
        have hnk : n.history.length = k := by omega
        have ekn : keyval k n = n.GetBackward k := keyval_of_fin k n hni
        have ern : rank k n = sizeMax + 1 + n.GetBackward k := rank_of_fin k n hni
        have edn : decide (n.history.length < k) = false := by simp [hni]
        by_cases hgi : good.history.length < k
        · -- held best is infinite: the head is skipped
          have edg : decide (good.history.length < k) = true := by simp [hgi]
          have erg : rank k good = good.GetBackward good.history.length :=
            rank_of_inf k good hgi
          have ekg : keyval k good = good.GetBackward good.history.length :=
            keyval_of_inf k good hgi
          rw [edg, selectGo_cons_fin_skip k f n rest _ _ hev' hnk]
          obtain ⟨g, m, hsel, hmem, hm1, hm2, hrk, hall⟩ := ih f0 good hwfrest hg1 hg2
          rw [edg] at hsel
          refine ⟨g, m, hsel, ?_, hm1, hm2, hrk, ?_⟩
          · rcases hmem with h | ⟨h1, h2⟩
            · exact Or.inl h
            · exact Or.inr ⟨List.mem_cons_of_mem _ h1, h2⟩
          · intro x hx hex
            rcases List.mem_cons.mp hx with h | h
            · rw [h]
              show rank k m ≤ rank k n
              have : rank k good < rank k n := by
                rw [erg, ern]
                rw [ekg] at hg2
                omega
              omega
            · exact hall x h hex
        · -- both finite: compare the k-th most recent timestamps
          have edg : decide (good.history.length < k) = false := by simp [hgi]
          have ekg : keyval k good = good.GetBackward k := keyval_of_fin k good hgi
          have erg : rank k good = sizeMax + 1 + good.GetBackward k := rank_of_fin k good hgi
          rw [edg, selectGo_cons_fin_cmp k f n rest _ _ hev' hnk]
          by_cases hc : n.GetBackward k < keyval k good
          · rw [if_pos hc]
            obtain ⟨g, m, hsel, hmem, hm1, hm2, hrk, hall⟩ := ih f n hwfrest hnlen hnkv
            rw [edn, ekn] at hsel
            refine ⟨g, m, hsel, ?_, hm1, hm2, ?_, ?_⟩
            · rcases hmem with ⟨h1, h2⟩ | ⟨h1, h2⟩
              · exact Or.inr ⟨by rw [h1, h2]; exact List.mem_cons_self _ _, h2 ▸ hev'⟩
              · exact Or.inr ⟨List.mem_cons_of_mem _ h1, h2⟩
            · rw [erg]
              rw [ern] at hrk
              rw [ekg] at hc
              omega
            · intro x hx hex
              rcases List.mem_cons.mp hx with h | h
              · rw [h]
                show rank k m ≤ rank k n
                exact hrk
              · exact hall x h hex
          · rw [if_neg hc]
            obtain ⟨g, m, hsel, hmem, hm1, hm2, hrk, hall⟩ := ih f0 good hwfrest hg1 hg2
            rw [edg] at hsel
            refine ⟨g, m, hsel, ?_, hm1, hm2, hrk, ?_⟩
            · rcases hmem with h | ⟨h1, h2⟩
              · exact Or.inl h
              · exact Or.inr ⟨List.mem_cons_of_mem _ h1, h2⟩
            · intro x hx hex
              rcases List.mem_cons.mp hx with h | h
              · rw [h]
                show rank k m ≤ rank k n
                have : rank k good ≤ rank k n := by
                  rw [erg, ern]
                  rw [ekg] at hc
                  omega
                omega
              · exact hall x h hex

/-- The selection loop started from the initial accumulator
(`frame_id = -1`, `inf_node = false`, `least = SIZE_MAX`): with no evictable
node it returns `-1`; otherwise it returns an evictable entry of the list
ranking no worse than every evictable entry. -/
theorem selectGo_start (k : Nat) (l : List (Nat × LRUKNode)) :
    storeWF k l →
    ((∀ e ∈ l, e.2.is_evictable = false) → selectGo k l (-1) false sizeMax = some (-1)) ∧
    ((∃ e, e ∈ l ∧ e.2.is_evictable = true) →
      ∃ g m, selectGo k l (-1) false sizeMax = some (Int.ofNat g) ∧
        (g, m) ∈ l ∧ m.is_evictable = true ∧
        m.history.length ≤ k ∧ keyval k m < sizeMax ∧
        (∀ e ∈ l, e.2.is_evictable = true → rank k m ≤ rank k e.2)) := by
  induction l with
  | nil =>
    intro _
    exact ⟨fun _ => rfl, fun ⟨e, he, _⟩ => absurd he (List.not_mem_nil e)⟩
  | cons e rest ih =>
    intro hwf
    obtain ⟨f, n⟩ := e
    have hwfrest : storeWF k rest := fun x hx hex => hwf x (List.mem_cons_of_mem _ hx) hex
    by_cases hev : n.is_evictable = false
    · constructor
      · intro hall
        rw [selectGo_cons_skip k f n rest _ _ _ hev]
        exact (ih hwfrest).1 (fun x hx => hall x (List.mem_cons_of_mem _ hx))
      · rintro ⟨x, hx, hex⟩
        rcases List.mem_cons.mp hx with h | h
        · rw [h] at hex
          exact absurd hex (by simp [hev])
        · obtain ⟨g, m, hsel, hmem, hmev, hm1, hm2, hall⟩ := (ih hwfrest).2 ⟨x, h, hex⟩
          rw [← selectGo_cons_skip k f n rest (-1) false sizeMax hev] at hsel
          refine ⟨g, m, hsel, List.mem_cons_of_mem _ hmem, hmev, hm1, hm2, ?_⟩
          intro y hy hey
          rcases List.mem_cons.mp hy with h' | h'
          · rw [h'] at hey
            exact absurd hey (by simp [hev])
          · exact hall y h' hey
    · have hev' : n.is_evictable = true := by
        cases h : n.is_evictable
        · exact absurd h hev
        · rfl
      have hnlen : n.history.length ≤ k := (hwf (f, n) (List.mem_cons_self _ _) hev').1
      have hnkv : keyval k n < sizeMax := (hwf (f, n) (List.mem_cons_self _ _) hev').2
      constructor
      · intro hall
        exact absurd (hall (f, n) (List.mem_cons_self _ _)) (by simp [hev'])
      · intro _
        by_cases hni : n.history.length < k
        · -- the first evictable node has infinite K-distance: taken at once
          have ekn : keyval k n = n.GetBackward n.history.length := keyval_of_inf k n hni
          have edn : decide (n.history.length < k) = true := by simp [hni]
          rw [selectGo_cons_inf_first k f n rest _ _ hev' hni]
          obtain ⟨g, m, hsel, hmem, hm1, hm2, hrk, hall⟩ :=
            selectGo_held k rest f n hwfrest hnlen hnkv
          rw [edn, ekn] at hsel
          refine ⟨g, m, hsel, ?_, ?_, hm1, hm2, ?_⟩
          · rcases hmem with ⟨h1, h2⟩ | ⟨h1, h2⟩
            · rw [h1, h2]
              exact List.mem_cons_self _ _
            · exact List.mem_cons_of_mem _ h1
          · rcases hmem with ⟨h1, h2⟩ | ⟨h1, h2⟩
            · rw [h2]
              exact hev'
            · exact h2
          · intro x hx hex
            rcases List.mem_cons.mp hx with h | h
            · rw [h]
              show rank k m ≤ rank k n
              exact hrk
            · exact hall x h hex
        · -- the first evictable node has k accesses: its key beats SIZE_MAX
          have hnk : n.history.length = k := by omega
          have ekn : keyval k n = n.GetBackward k := keyval_of_fin k n hni
          have edn : decide (n.history.length < k) = false := by simp [hni]
          rw [selectGo_cons_fin_cmp k f n rest _ _ hev' hnk,
            if_pos (by rw [← ekn]; exact hnkv)]
          obtain ⟨g, m, hsel, hmem, hm1, hm2, hrk, hall⟩ :=
            selectGo_held k rest f n hwfrest hnlen hnkv
          rw [edn, ekn] at hsel
          refine ⟨g, m, hsel, ?_, ?_, hm1, hm2, ?_⟩
          · rcases hmem with ⟨h1, h2⟩ | ⟨h1, h2⟩
            · rw [h1, h2]
              exact List.mem_cons_self _ _
            · exact List.mem_cons_of_mem _ h1
          · rcases hmem with ⟨h1, h2⟩ | ⟨h1, h2⟩
            · rw [h2]
              exact hev'
            · exact h2
          · intro x hx hex
            rcases List.mem_cons.mp hx with h | h
            · rw [h]
              show rank k m ≤ rank k n
              exact hrk
            · exact hall x h hex

/-- C4: on a well-formed replacer state, `Evict` returns `false` exactly
when no evictable node exists (`curr_size_` counts them); otherwise it
removes and returns an evictable frame that the claim's rule strictly
prefers to every other evictable frame: infinite K-distance (fewer than `k`
recorded accesses) dominates, among frames with `k` accesses the largest
`now − (k-th most recent timestamp)` — i.e. the smallest `GetBackward k` —
wins, and ties among infinite-distance frames fall to the earliest oldest
recorded timestamp.  Distinctness of the comparison keys is supplied by the
spec's strictly increasing timestamp source. -/
theorem lruk_evict_picks_largest_kdistance (r : LRUKReplacer) (hwf : replacerWF r) :
    (r.curr_size = 0 →
      (∀ e ∈ r.node_store, e.2.is_evictable = false) ∧ lrukEvict r = some (false, none, r)) ∧
    (r.curr_size ≠ 0 →
      ∃ g m, lookupKey r.node_store g = some m ∧ m.is_evictable = true ∧
        lrukEvict r = some (true, some g,
          { r with
            node_store := eraseKey r.node_store g
            curr_size := r.curr_size - 1 }) ∧
        (∀ e ∈ r.node_store, e.2.is_evictable = true → e.1 ≠ g →
          claimPrefers r.k m e.2)) := by
  obtain ⟨hnd, hsz, hfid, hnodes, hdist⟩ := hwf
  constructor
  · intro h0
    constructor
    · rw [h0] at hsz
      exact (countEvictable_eq_zero_iff r.node_store).mp hsz.symm
    · unfold lrukEvict
      rw [if_pos h0]
  · intro hne
    have hcount : countEvictable r.node_store ≠ 0 := by
      rw [← hsz]
      exact hne
    have hex : ∃ e, e ∈ r.node_store ∧ e.2.is_evictable = true := by
      by_contra hcon
      push_neg at hcon
      refine hcount ((countEvictable_eq_zero_iff _).mpr ?_)
      intro e he
      cases hb : e.2.is_evictable
      · rfl
      · exact absurd hb (hcon e he)
    have hswf : storeWF r.k r.node_store := fun e he hev => hnodes e he hev
    obtain ⟨g, m, hsel, hmem, hmev, hm1, hm2, hall⟩ := (selectGo_start r.k r.node_store hswf).2 hex
    have hlook : lookupKey r.node_store g = some m := lookupKey_of_mem hmem hnd
    refine ⟨g, m, hlook, hmev, ?_, ?_⟩
    · unfold lrukEvict SelectEvictableNode
      rw [if_neg hne]
      simp only [hsel]
      have hgb : g ≤ r.replacer_size := hfid (g, m) hmem
      rw [if_pos ⟨Int.ofNat_nonneg g, Int.ofNat_le.mpr hgb⟩]
      rw [show (Int.ofNat g).toNat = g from rfl]
      simp only [containsKey, hlook, Option.isSome_some]
      rw [if_pos trivial]
    · intro e he hev hneq
      have hr1 : rank r.k m ≤ rank r.k e.2 := hall e he hev
      have hr2 : rank r.k m ≠ rank r.k e.2 := by
        intro hcontra
        exact hdist (g, m) hmem e he (Ne.symm hneq) hmev hev hcontra
      exact (rank_lt_of_claimPrefers_aux r.k m e.2 hm2 (hnodes e he hev).2).mp
        (lt_of_le_of_ne hr1 hr2)

theorem lruk_evict_picks_largest_kdistance_witness :
    replacerWF c4replacer ∧ c4replacer.curr_size ≠ 0 ∧
    (∃ g m, lookupKey c4replacer.node_store g = some m ∧ m.is_evictable = true ∧
      lrukEvict c4replacer = some (true, some g,
        { c4replacer with
          node_store := eraseKey c4replacer.node_store g
          curr_size := c4replacer.curr_size - 1 }) ∧
      (∀ e ∈ c4replacer.node_store, e.2.is_evictable = true → e.1 ≠ g →
        claimPrefers c4replacer.k m e.2)) :=
  ⟨by decide, by decide,
    (lruk_evict_picks_largest_kdistance c4replacer (by decide)).2 (by decide)⟩
